import Mathlib

/-!
Verification development for the vendor risk rating engine
(`risk_rating/analyzer.py`).  Every definition in this file is a shallow
embedding of the corresponding Python function; text is modelled as a list
of characters, Python dictionaries with defaulted lookups become structures
with default field values, and the three top-level rule-document sections
(`conditions`, `catalog`, `ratings`) — whose absence raises `KeyError` in
the source — are modelled as `Option` fields with evaluation returning
`Except String`.
-/

namespace RiskRating

abbrev Text := List Char

/-- Python `\s` whitespace over the ASCII range, as used by `re.sub(r"\s+", " ", ...)`. -/
def isWS (c : Char) : Bool :=
  c == ' ' || c == '\t' || c == '\n' || c == '\r' || c == '\x0b' || c == '\x0c'

/-- Python `\w` word characters (`[a-zA-Z0-9_]` over the ASCII range). -/
def isWordChar (c : Char) : Bool :=
  c.isAlphanum || c == '_'

/-- Replace every occurrence of the mis-encoded ellipsis sequence with three dots,
embedding the `.replace` step of `_normalize` (left to right, non-overlapping,
exactly as `str.replace`). -/
def replaceEllipsis : Text → Text
  | [] => []
  | [c] => [c]
  | [c, d] => [c, d]
  | c :: d :: e2 :: rest =>
    if c = 'â' ∧ d = '€' ∧ e2 = '¦' then '.' :: '.' :: '.' :: replaceEllipsis rest
    else c :: replaceEllipsis (d :: e2 :: rest)

/-- Split into maximal whitespace-free words, accumulating the current word reversed. -/
def wordsAux (cur : Text) : Text → List Text
  | [] => if cur.isEmpty then [] else [cur.reverse]
  | c :: rest =>
    if isWS c then
      if cur.isEmpty then wordsAux [] rest else cur.reverse :: wordsAux [] rest
    else wordsAux (c :: cur) rest

/-- The whitespace-separated words of a text. -/
def wordsOf (t : Text) : List Text := wordsAux [] t

/-- Join words with single spaces, embedding the combined effect of
`re.sub(r"\s+", " ", ...)` followed by `.strip()`. -/
def joinSpace : List Text → Text
  | [] => []
  | [w] => w
  | w :: ws => w ++ ' ' :: joinSpace ws

/-- Lower-case a character (the ASCII case fold performed by `str.lower`). -/
def lowerChar (c : Char) : Char := c.toLower

/-- Embedding of `_normalize`: lower-case, fix the mis-encoded ellipsis,
collapse whitespace runs to single spaces and trim. -/
def normalize (t : Text) : Text :=
  joinSpace (wordsOf (replaceEllipsis (t.map lowerChar)))

/-- Whether `pat` is a prefix of the second list (Boolean). -/
def isPrefixList : Text → Text → Bool
  | [], _ => true
  | _ :: _, [] => false
  | a :: as, b :: bs => a == b && isPrefixList as bs

/-- Whether `pat` occurs as a contiguous sublist of `s` — Python's `pat in s`
on strings. -/
def occursIn (pat : Text) : Text → Bool
  | [] => isPrefixList pat []
  | c :: rest => isPrefixList pat (c :: rest) || occursIn pat rest

/-- Embedding of `_statement_present`: false for a raw-empty statement, else the
normalized statement must occur in the (already normalized) corpus. -/
def statement_present (notes stmt : Text) : Bool :=
  if stmt = [] then false
  else occursIn (normalize stmt) notes

/-- Boundary test before the `n` of `n/a` for the regex `\bn/a\b`. -/
def boundaryOk : Option Char → Bool
  | none => true
  | some p => !isWordChar p

/-- Boundary test after the `a` of `n/a` for the regex `\bn/a\b`. -/
def naAfterOk : Text → Bool
  | [] => true
  | c :: _ => !isWordChar c

/-- Scan for a standalone `n/a` token, tracking the previous character. -/
def hasNAFrom : Option Char → Text → Bool
  | _, [] => false
  | prev, c :: rest =>
    ((c == 'n') && boundaryOk prev &&
      (match rest with
       | '/' :: 'a' :: rest2 => naAfterOk rest2
       | _ => false))
    || hasNAFrom (some c) rest

/-- Embedding of `re.search(r"\bn/a\b", notes)`. -/
def hasStandaloneNA (t : Text) : Bool := hasNAFrom none t

/-- Embedding of `re.split(r"\W+", s)`: the pieces between maximal runs of
non-word characters, with empty pieces at the ends when the string starts or
finishes with such a run. -/
def splitNW : Text → List Text
  | [] => [[]]
  | c :: rest =>
    match splitNW rest with
    | [] => [[]]
    | w :: ws =>
      if isWordChar c then (c :: w) :: ws
      else if w = [] && ws ≠ [] then w :: ws
      else [] :: w :: ws

/-- Lexicographic comparison of texts by character code, matching Python `str` order. -/
def textLe : Text → Text → Bool
  | [], _ => true
  | _ :: _, [] => false
  | a :: as, b :: bs => if a = b then textLe as bs else decide (a < b)

/-- Insert into a sorted list of texts. -/
def insertSorted (x : Text) : List Text → List Text
  | [] => [x]
  | y :: ys => if textLe x y then x :: y :: ys else y :: insertSorted x ys

/-- Insertion sort on texts, embedding Python `sorted` on strings. -/
def sortTexts : List Text → List Text
  | [] => []
  | x :: xs => insertSorted x (sortTexts xs)

/-- Remove duplicates, embedding the observable content of a Python `set` of strings. -/
def dedupT : List Text → List Text
  | [] => []
  | x :: xs => x :: (dedupT xs).filter (fun y => y ≠ x)

/-! ## Rule document data model

Python dictionaries whose keys are read with `.get(key, default)` become
structures with default field values; the three top-level sections, which the
source indexes directly (raising `KeyError` when absent), become `Option`
fields of `Rules`. -/

/-- A control definition from the catalog (`control["id"]`,
`control.get("text", "")`, `control.get("tags", [])`). -/
structure ControlDef where
  id : Text
  text : Text := []
  tags : List Text := []
deriving DecidableEq, Repr

/-- The `conditions["logical_access_controls"]` block. -/
structure LacConditions where
  pii_positive_statements : List Text := []
  enforce_mfa_critical_or_pii_if_company_handles_pii : Bool := false
  passwords_encrypted_in_transit_only_if_negative_statement_present : List Text := []
deriving DecidableEq, Repr

/-- The `conditions["remote_workforce"]` block. -/
structure RemoteConditions where
  enforce_only_if_remote_work_allowed : Text := []
deriving DecidableEq, Repr

/-- The `conditions["network_information_security"]` block. -/
structure NetConditions where
  enforce_pii_controls_if_company_handles_pii : Bool := false
  do_not_enforce_need_to_know_if_least_privilege_statement_present : Bool := false
deriving DecidableEq, Repr

/-- One entry of `conditions["cross_satisfaction"]`. -/
structure CrossRule where
  if_any_statement_present : List Text := []
  then_mark_controls_met : List Text := []
deriving DecidableEq, Repr

/-- The `conditions` section of the rule document. -/
structure Conditions where
  logical_access_controls : LacConditions := {}
  remote_workforce : RemoteConditions := {}
  network_information_security : NetConditions := {}
  cross_satisfaction : List CrossRule := []
deriving DecidableEq, Repr

/-- The `catalog["network_information_security"]` block. -/
structure NetworkCatalog where
  pii_controls : List ControlDef := []
  controls : List ControlDef := []
deriving DecidableEq, Repr

/-- The `catalog` section of the rule document. -/
structure Catalog where
  logical_access_controls : List ControlDef := []
  network_information_security : NetworkCatalog := {}
  change_mgmt_sdlc : List ControlDef := []
  remote_workforce : List ControlDef := []
  business_continuity : List ControlDef := []
  incident_response_elements : List Text := []
deriving DecidableEq, Repr

/-- A tier's `info_tech_overview` requirement block. -/
structure InfoTechReq where
  required : List Text := []
deriving DecidableEq, Repr

/-- A tier's `logical_access_controls` requirement block. -/
structure LacReq where
  required_all : Bool := false
  min_count : Nat := 0
  must_include_tag : Text := []
deriving DecidableEq, Repr

/-- A tier's `network_information_security` requirement block. -/
structure NetReq where
  pii_controls_required_if_company_handles_pii : Bool := false
  controls_required_all : Bool := false
  min_count : Nat := 0
  must_include_tag : Text := []
deriving DecidableEq, Repr

/-- A tier's `change_mgmt_sdlc` requirement block. -/
structure ChgReq where
  required_all : Bool := false
  require_change_mgmt_process : Bool := false
  min_count_from : List Text := []
  min_count : Nat := 0
deriving DecidableEq, Repr

/-- A tier's `remote_workforce` requirement block. -/
structure RwReq where
  required_all : Bool := false
  min_count : Nat := 0
deriving DecidableEq, Repr

/-- A tier's `incident_response` requirement block (`None` means no minimum). -/
structure IncReq where
  min_elements : Option Nat := none
deriving DecidableEq, Repr

/-- A tier's `business_continuity` requirement block. -/
structure BcReq where
  required : Bool := false
deriving DecidableEq, Repr

/-- The composite requirement set of one rating tier. -/
structure RatingReq where
  info_tech_overview : InfoTechReq := {}
  logical_access_controls : LacReq := {}
  network_information_security : NetReq := {}
  change_mgmt_sdlc : ChgReq := {}
  remote_workforce : RwReq := {}
  incident_response : IncReq := {}
  business_continuity : BcReq := {}
deriving DecidableEq, Repr

/-- The `ratings` section: the four orderable tiers. -/
structure Ratings where
  very_favorable : RatingReq := {}
  favorable : RatingReq := {}
  neutral : RatingReq := {}
  unfavorable : RatingReq := {}
deriving DecidableEq, Repr

/-- The rule document; the three sections raise `KeyError` in the source when
absent, hence `Option`. -/
structure Rules where
  conditions : Option Conditions := none
  catalog : Option Catalog := none
  ratings : Option Ratings := none
deriving DecidableEq, Repr

/-- The six possible rating outcomes. -/
inductive Rating where
  | no_information_provided
  | n_a
  | very_favorable
  | favorable
  | neutral
  | unfavorable
  | very_unfavorable
deriving DecidableEq, Repr

/-- Per-control status record, mirroring the `ControlStatus` dataclass. -/
structure ControlStatus where
  control_id : Text
  required : Bool
  satisfied : Bool
  text : Text
  tags : List Text
deriving DecidableEq, Repr

/-- The `details` part of an evaluation result: empty for the degenerate
outcomes, the five-field record for an awarded tier, and the reason plus
missing-control list for the `very_unfavorable` fallback. -/
inductive Details where
  | empty
  | tier (rating : Rating) (satisfied_controls missing_controls incident_response_elements info_tech_overview : List Text)
  | fallback (reason : Text) (missing_controls : List Text)
deriving DecidableEq, Repr

/-- The `context` block of an evaluation result; `incident_elements` is absent
(`none`) for the two degenerate outcomes. -/
structure ContextBlock where
  handles_pii : Bool
  remote_work_allowed : Bool
  software_provider : Bool
  incident_elements : Option (List Text)
deriving DecidableEq, Repr

/-- A complete evaluation result record. -/
structure EvalResult where
  rating : Rating
  details : Details
  context : ContextBlock
deriving DecidableEq, Repr

/-- The derived per-evaluation context facts. -/
structure Context where
  handles_pii : Bool
  remote_work_allowed : Bool
  software_provider : Bool
deriving DecidableEq, Repr

/-! ## The evaluation engine -/

/-- The fixed `SOFTWARE_PROVIDER_KEYWORDS` phrase list. -/
def SOFTWARE_PROVIDER_KEYWORDS : List Text :=
  [ "software provider".toList
  , "software development".toList
  , "develops software".toList
  , "developing software".toList
  , "builds software".toList
  , "provides software".toList
  , "saas".toList
  , "platform as a service".toList
  , "application development".toList ]

/-- Embedding of `_build_context` (given the `conditions` section, which the
source has already indexed successfully at this point). -/
def build_context (conds : Conditions) (notes : Text) : Context :=
  { handles_pii :=
      conds.logical_access_controls.pii_positive_statements.any
        (fun stmt => statement_present notes stmt)
  , remote_work_allowed :=
      conds.remote_workforce.enforce_only_if_remote_work_allowed ≠ [] &&
        statement_present notes conds.remote_workforce.enforce_only_if_remote_work_allowed
  , software_provider :=
      SOFTWARE_PROVIDER_KEYWORDS.any (fun phrase => occursIn phrase notes) }

/-- Embedding of `_apply_cross_satisfaction`: the accumulated set of control
ids granted satisfaction by inference (a list used only through membership). -/
def apply_cross_satisfaction (conds : Conditions) (notes : Text) : List Text :=
  conds.cross_satisfaction.foldl
    (fun acc rule =>
      if rule.if_any_statement_present.any (fun stmt => statement_present notes stmt)
      then acc ++ rule.then_mark_controls_met
      else acc)
    []

/-- Embedding of `_statement_satisfies_control`, including the (unreachable in
effect) negative-statement branch placed after the positive early returns, and
the `re.split(r"\W+", ...)` tail-segment fallback. -/
def statement_satisfies_control (lacConds : LacConditions) (notes : Text)
    (control_id control_text : Text) : Bool :=
  if statement_present notes control_text then true
  else if control_id ≠ [] && occursIn control_id notes then true
  else if (splitNW control_id).length > 1 &&
          (joinSpace (splitNW control_id).tail ≠ [] &&
            occursIn (joinSpace (splitNW control_id).tail) notes) then true
  else if control_id = "lac_passwords_encrypted_in_transit".toList then
    if lacConds.passwords_encrypted_in_transit_only_if_negative_statement_present.any
        (fun neg => statement_present notes neg)
    then false
    else false
  else false

/-- Embedding of `register_control`: Python dict insertion — replace in place
when the key exists, else append. -/
def register (m : List ControlStatus) (cs : ControlStatus) : List ControlStatus :=
  if m.any (fun x => x.control_id = cs.control_id) then
    m.map (fun x => if x.control_id = cs.control_id then cs else x)
  else m ++ [cs]

/-- Embedding of `check_control`: cross-satisfaction wins, else direct matching. -/
def check_control (conds : Conditions) (notes : Text) (cross : List Text)
    (m : List ControlStatus) (c : ControlDef) (required : Bool) : List ControlStatus :=
  register m
    { control_id := c.id
    , required := required
    , satisfied :=
        if c.id ∈ cross then true
        else statement_satisfies_control conds.logical_access_controls notes c.id c.text
    , text := c.text
    , tags := c.tags }

/-- The step of the `pii_controls` loop of `_evaluate_controls`, with the
need-to-know override consulting the already-registered least-privilege status. -/
def piiStep (conds : Conditions) (notes : Text) (cross : List Text) (ctx : Context)
    (m : List ControlStatus) (c : ControlDef) : List ControlStatus :=
  let required := !(conds.network_information_security.enforce_pii_controls_if_company_handles_pii
                      && !ctx.handles_pii)
  if c.id = "net_pii_need_to_know".toList &&
     conds.network_information_security.do_not_enforce_need_to_know_if_least_privilege_statement_present then
    match m.find? (fun x => decide (x.control_id = "lac_least_privilege".toList)) with
    | some lp =>
      if lp.satisfied then
        register m
          { control_id := c.id, required := false, satisfied := true
          , text := c.text, tags := c.tags }
      else check_control conds notes cross m c required
    | none => check_control conds notes cross m c required
  else check_control conds notes cross m c required

/-- The step of the `logical_access_controls` loop of `_evaluate_controls`. -/
def lacStep (conds : Conditions) (notes : Text) (cross : List Text) (ctx : Context)
    (m : List ControlStatus) (c : ControlDef) : List ControlStatus :=
  let required := !(c.id = "lac_mfa_critical_or_pii".toList &&
                    conds.logical_access_controls.enforce_mfa_critical_or_pii_if_company_handles_pii &&
                    !ctx.handles_pii)
  check_control conds notes cross m c required

/-- Embedding of `_evaluate_controls`: the six catalog loops in source order. -/
def evaluate_controls (cat : Catalog) (conds : Conditions) (ctx : Context)
    (cross : List Text) (notes : Text) : List ControlStatus :=
  let m1 := cat.logical_access_controls.foldl (lacStep conds notes cross ctx) []
  let m2 := cat.network_information_security.pii_controls.foldl (piiStep conds notes cross ctx) m1
  let m3 := cat.network_information_security.controls.foldl
    (fun m c => check_control conds notes cross m c true) m2
  let m4 := cat.change_mgmt_sdlc.foldl
    (fun m c => check_control conds notes cross m c ctx.software_provider) m3
  let m5 := cat.remote_workforce.foldl
    (fun m c => check_control conds notes cross m c ctx.remote_work_allowed) m4
  cat.business_continuity.foldl
    (fun m c => check_control conds notes cross m c true) m5

/-- Embedding of `_collect_incident_response_elements` (the set, as a
duplicate-free list). -/
def collect_incident (cat : Catalog) (notes : Text) : List Text :=
  dedupT (cat.incident_response_elements.filter (fun e => statement_present notes e))

/-- Embedding of `_evaluate_info_tech_overview`: the subset of the
`very_favorable` tier's required overview statements present in the corpus. -/
def eval_info_tech_overview (rats : Ratings) (notes : Text) : List Text :=
  dedupT (rats.very_favorable.info_tech_overview.required.filter
    (fun stmt => statement_present notes stmt))

/-- Embedding of `_evaluate_business_continuity`. -/
def eval_business_continuity (status : List ControlStatus) : Bool :=
  match status.find? (fun x => decide (x.control_id = "bcp_plan".toList)) with
  | some c => c.satisfied
  | none => false

/-- Embedding of `_category_controls`. -/
def category_controls (pfx : Text) (status : List ControlStatus) : List ControlStatus :=
  status.filter (fun c => isPrefixList pfx c.control_id)

/-- Embedding of `_meets_info_tech_overview`. -/
def meets_info_tech_overview (req : InfoTechReq) (pres : List Text) : Bool :=
  req.required.all (fun stmt => stmt ∈ pres)

/-- Embedding of `_meets_logical_access_controls`. -/
def meets_logical_access_controls (req : LacReq) (status : List ControlStatus) : Bool :=
  let required_controls := (category_controls ("lac_".toList) status).filter (fun c => c.required)
  if req.required_all then required_controls.all (fun c => c.satisfied)
  else
    let count := required_controls.countP (fun c => c.satisfied = true)
    if count < req.min_count then false
    else if req.must_include_tag ≠ [] then
      required_controls.any (fun c => c.satisfied && req.must_include_tag ∈ c.tags)
    else true

/-- Embedding of `_meets_network_controls`. -/
def meets_network_controls (req : NetReq) (ctx : Context) (status : List ControlStatus) : Bool :=
  let pii_controls := (category_controls ("net_pii_".toList) status).filter (fun c => c.required)
  if req.pii_controls_required_if_company_handles_pii && ctx.handles_pii &&
     !(pii_controls ≠ [] && pii_controls.all (fun c => c.satisfied)) then false
  else
    let net_controls := status.filter (fun c =>
      isPrefixList ("net_".toList) c.control_id && !isPrefixList ("net_pii_".toList) c.control_id)
    let required_controls := net_controls.filter (fun c => c.required)
    if req.controls_required_all then required_controls.all (fun c => c.satisfied)
    else
      let count := required_controls.countP (fun c => c.satisfied = true)
      if count < req.min_count then false
      else if req.must_include_tag ≠ [] &&
              !required_controls.any (fun c => c.satisfied && req.must_include_tag ∈ c.tags) then false
      else true

/-- Embedding of `_meets_change_mgmt`. -/
def meets_change_mgmt (req : ChgReq) (ctx : Context) (status : List ControlStatus) : Bool :=
  let required_controls := (category_controls ("chg_".toList) status).filter (fun c => c.required)
  if !ctx.software_provider then true
  else if req.required_all then required_controls.all (fun c => c.satisfied)
  else if req.require_change_mgmt_process &&
          !(match status.find? (fun x => decide (x.control_id = "chg_change_mgmt_process".toList)) with
            | some c => c.satisfied
            | none => false) then false
  else if req.min_count_from ≠ [] then
    let satisfied_count := req.min_count_from.countP (fun cid =>
      match status.find? (fun x => decide (x.control_id = cid)) with
      | some c => c.satisfied = true
      | none => False)
    decide (satisfied_count ≥ req.min_count)
  else
    decide (required_controls.countP (fun c => c.satisfied = true) ≥ req.min_count)

/-- Embedding of `_meets_remote_workforce`. -/
def meets_remote_workforce (req : RwReq) (ctx : Context) (status : List ControlStatus) : Bool :=
  let required_controls := (category_controls ("rw_".toList) status).filter (fun c => c.required)
  if !ctx.remote_work_allowed then true
  else if req.required_all then required_controls.all (fun c => c.satisfied)
  else decide (required_controls.countP (fun c => c.satisfied = true) ≥ req.min_count)

/-- Embedding of `_meets_incident_response`. -/
def meets_incident_response (req : IncReq) (elements : List Text) : Bool :=
  match req.min_elements with
  | none => true
  | some n => decide (elements.length ≥ n)

/-- Embedding of `_meets_business_continuity`. -/
def meets_business_continuity (req : BcReq) (has_plan : Bool) : Bool :=
  !(req.required && !has_plan)

/-- Embedding of `_meets_rating`: the seven composite checks. -/
def meets_rating (req : RatingReq) (ctx : Context) (status : List ControlStatus)
    (incident overview : List Text) (bc : Bool) : Bool :=
  meets_info_tech_overview req.info_tech_overview overview &&
  meets_logical_access_controls req.logical_access_controls status &&
  meets_network_controls req.network_information_security ctx status &&
  meets_change_mgmt req.change_mgmt_sdlc ctx status &&
  meets_remote_workforce req.remote_workforce ctx status &&
  meets_incident_response req.incident_response incident &&
  meets_business_continuity req.business_continuity bc

/-- Embedding of `_missing_required_controls`. -/
def missing_required_controls (status : List ControlStatus) : List Text :=
  sortTexts ((status.filter (fun c => c.required && !c.satisfied)).map (fun c => c.control_id))

/-- Embedding of `_build_rating_details`. -/
def build_rating_details (rating : Rating) (status : List ControlStatus)
    (incident overview : List Text) : Details :=
  Details.tier rating
    (sortTexts ((status.filter (fun c => c.satisfied && c.required)).map (fun c => c.control_id)))
    (missing_required_controls status)
    (sortTexts incident)
    (sortTexts overview)

/-- The fixed fallback reason string. -/
def fallbackReason : Text :=
  "Vendor did not satisfy the minimum safeguards for an unfavorable rating.".toList

/-- The ordered tier list with each tier's requirement block. -/
def ratingsOrderReqs (rats : Ratings) : List (Rating × RatingReq) :=
  [ (Rating.very_favorable, rats.very_favorable)
  , (Rating.favorable, rats.favorable)
  , (Rating.neutral, rats.neutral)
  , (Rating.unfavorable, rats.unfavorable) ]

/-- Embedding of `_determine_rating`: first tier whose composite requirements
pass, else the `very_unfavorable` fallback. -/
def determine_rating (rats : Ratings) (ctx : Context) (status : List ControlStatus)
    (incident overview : List Text) (bc : Bool) : Rating × Details :=
  match (ratingsOrderReqs rats).find?
      (fun rr => meets_rating rr.2 ctx status incident overview bc) with
  | some rr => (rr.1, build_rating_details rr.1 status incident overview)
  | none => (Rating.very_unfavorable, Details.fallback fallbackReason (missing_required_controls status))

/-- The literal `not applicable` phrase tested by the degenerate check. -/
def notApplicablePhrase : Text := "not applicable".toList

/-- The all-false context block of the two degenerate outcomes. -/
def degenerateContext : ContextBlock :=
  { handles_pii := false, remote_work_allowed := false
  , software_provider := false, incident_elements := none }

/-- Embedding of `RiskRatingEvaluator.evaluate`: the degenerate short-circuits,
then the pipeline; the three direct rule-document indexings become `Except`
errors at the program points where the source raises `KeyError`. -/
def evaluate (rules : Rules) (rawNotes : Text) : Except String EvalResult :=
  let notes := normalize rawNotes
  if notes = [] then
    Except.ok { rating := Rating.no_information_provided, details := Details.empty
              , context := degenerateContext }
  else if occursIn notApplicablePhrase notes || hasStandaloneNA notes then
    Except.ok { rating := Rating.n_a, details := Details.empty
              , context := degenerateContext }
  else
    match rules.conditions with
    | none => Except.error "conditions"
    | some conds =>
      let ctx := build_context conds notes
      let cross := apply_cross_satisfaction conds notes
      let status := evaluate_controls (rules.catalog.getD {}) conds ctx cross notes
      match rules.catalog with
      | none => Except.error "catalog"
      | some cat =>
        let incident := collect_incident cat notes
        match rules.ratings with
        | none => Except.error "ratings"
        | some rats =>
          let overview := eval_info_tech_overview rats notes
          let bc := eval_business_continuity status
          let rd := determine_rating rats ctx status incident overview bc
          Except.ok
            { rating := rd.1
            , details := rd.2
            , context :=
              { handles_pii := ctx.handles_pii
              , remote_work_allowed := ctx.remote_work_allowed
              , software_provider := ctx.software_provider
              , incident_elements := some (sortTexts incident) } }

/-- The mutable state of a `RiskRatingEvaluator` object: its rule document and
its `self.notes` field (overwritten at the start of every `evaluate` call). -/
structure EvaluatorState where
  rules : Rules
  notes : Text := []
deriving DecidableEq, Repr

/-- Stateful wrapper for `evaluate`, mirroring the object method: it stores the
normalized notes into `self.notes` and computes the result from the rule
document and the fresh notes only. -/
def evaluateST (st : EvaluatorState) (rawNotes : Text) : EvaluatorState × Except String EvalResult :=
  ({ st with notes := normalize rawNotes }, evaluate st.rules rawNotes)

/-! ## Concrete sample inputs used by witnesses and counterexamples -/

/-- A `logical_access_controls` conditions block configuring one negative
statement for the passwords-encrypted-in-transit control. -/
def lacNegConds : LacConditions :=
  { passwords_encrypted_in_transit_only_if_negative_statement_present :=
      ["passwords are not encrypted in transit".toList] }

/-- A normalized corpus containing both the control text and the configured
negative statement for the passwords-encrypted-in-transit control. -/
def pwNotes : Text :=
  "passwords are encrypted in transit. however passwords are not encrypted in transit for legacy systems".toList

/-- The passwords-encrypted-in-transit control text used in the sample corpus. -/
def pwText : Text := "passwords are encrypted in transit".toList

/-- The designated passwords-encrypted-in-transit control identifier. -/
def pwId : Text := "lac_passwords_encrypted_in_transit".toList

/-- A one-control logical-access catalog used by witnesses. -/
def sampleCatalog : Catalog :=
  { logical_access_controls := [{ id := "lac_mfa".toList, text := "mfa is enforced".toList }] }

/-- Four identical tiers each demanding one satisfied logical-access control. -/
def sampleRatings : Ratings :=
  { very_favorable := { logical_access_controls := { min_count := 1 } }
  , favorable := { logical_access_controls := { min_count := 1 } }
  , neutral := { logical_access_controls := { min_count := 1 } }
  , unfavorable := { logical_access_controls := { min_count := 1 } } }

/-- A complete small rule document used by witnesses. -/
def sampleRules : Rules :=
  { conditions := some {}, catalog := some sampleCatalog, ratings := some sampleRatings }

/-- A one-control business-continuity catalog used by the cross-satisfaction witness. -/
def crossCatalog : Catalog :=
  { business_continuity := [{ id := "bcp_plan".toList, text := "documented bcp".toList }] }

/-- The control map an evaluation builds for a rule document with the given
`conditions` and `catalog` sections on already-normalized notes. -/
def controlMapOf (conds : Conditions) (cat : Catalog) (notes : Text) : List ControlStatus :=
  evaluate_controls cat conds (build_context conds notes)
    (apply_cross_satisfaction conds notes) notes

/-- Invariant for C7: every registered control whose id is in the
cross-satisfied set is recorded satisfied. -/
def CrossOk (cross : List Text) (m : List ControlStatus) : Prop :=
  ∀ e ∈ m, e.control_id ∈ cross → e.satisfied = true

/-- The status record registered by the logical-access loop for a control. -/
def lacEntry (conds : Conditions) (notes : Text) (cross : List Text) (ctx : Context)
    (c : ControlDef) : ControlStatus :=
  { control_id := c.id
  , required := !(c.id = "lac_mfa_critical_or_pii".toList &&
      conds.logical_access_controls.enforce_mfa_critical_or_pii_if_company_handles_pii &&
      !ctx.handles_pii)
  , satisfied := if c.id ∈ cross then true
      else statement_satisfies_control conds.logical_access_controls notes c.id c.text
  , text := c.text, tags := c.tags }

/-- Conditions enabling the need-to-know override, for the C8 witness. -/
def c8Conds : Conditions :=
  { network_information_security :=
    { do_not_enforce_need_to_know_if_least_privilege_statement_present := true } }

/-- Catalog with a least-privilege control and a need-to-know PII control, for
the C8 witness. -/
def c8Catalog : Catalog :=
  { logical_access_controls :=
      [{ id := "lac_least_privilege".toList, text := "least privilege enforced".toList }]
  , network_information_security :=
    { pii_controls :=
        [{ id := "net_pii_need_to_know".toList, text := "need to know".toList }] } }

/-- The rating of a successful evaluation. -/
def ratingOf : Except String EvalResult → Option Rating
  | Except.ok r => some r.rating
  | Except.error _ => none

/-- Position of a rating in the fixed favorability order (smaller is more
favorable); the two degenerate outcomes sit outside the tier order. -/
def tierRank : Rating → Nat
  | Rating.very_favorable => 0
  | Rating.favorable => 1
  | Rating.neutral => 2
  | Rating.unfavorable => 3
  | Rating.very_unfavorable => 4
  | Rating.no_information_provided => 5
  | Rating.n_a => 6

/-- Normalized notes that trigger neither degenerate short-circuit. -/
def Nondegenerate (t : Text) : Prop :=
  t ≠ [] ∧ (occursIn notApplicablePhrase t || hasStandaloneNA t) = false

/-- Weak correspondence between the control statuses of an original run and an
extended-notes run: identity fields agree, satisfaction can only improve, and
requiredness agrees except when the extended run's need-to-know override
forced `required = false, satisfied = true`. -/
def StatusRelW (s s2 : ControlStatus) : Prop :=
  s.control_id = s2.control_id ∧ s.text = s2.text ∧ s.tags = s2.tags ∧
  (s.satisfied = true → s2.satisfied = true) ∧
  (s.required = s2.required ∨ (s2.required = false ∧ s2.satisfied = true))

/-- Strong correspondence: identity and requiredness agree, satisfaction can
only improve. -/
def StatusMono (s s2 : ControlStatus) : Prop :=
  s.control_id = s2.control_id ∧ s.text = s2.text ∧ s.tags = s2.tags ∧
  s.required = s2.required ∧ (s.satisfied = true → s2.satisfied = true)

/-- C2 counterexample, scenario 1: a two-control change-management catalog. -/
def c2aCatalog : Catalog :=
  { change_mgmt_sdlc :=
      [ { id := "chg_c1".toList, text := "provides software tooling".toList }
      , { id := "chg_c2".toList, text := "follows documented sdlc".toList } ] }

/-- C2 counterexample, scenario 1: every tier requires all change-management
controls. -/
def c2aRatings : Ratings :=
  { very_favorable := { change_mgmt_sdlc := { required_all := true } }
  , favorable := { change_mgmt_sdlc := { required_all := true } }
  , neutral := { change_mgmt_sdlc := { required_all := true } }
  , unfavorable := { change_mgmt_sdlc := { required_all := true } } }

/-- C2 counterexample, scenario 1: the rule document. -/
def c2aRules : Rules :=
  { conditions := some {}, catalog := some c2aCatalog, ratings := some c2aRatings }

/-- C2 counterexample, scenario 1: the original notes. -/
def c2aN1 : Text := "general vendor description".toList

/-- C2 counterexample, scenario 1: the notes with a control-satisfying
statement appended. -/
def c2aN2 : Text := c2aN1 ++ ' ' :: "provides software tooling".toList

/-- C2 counterexample, scenario 2: PII-positive statement plus the
need-to-know override flag. -/
def c2bConds : Conditions :=
  { logical_access_controls := { pii_positive_statements := ["handles customer pii".toList] }
  , network_information_security :=
    { do_not_enforce_need_to_know_if_least_privilege_statement_present := true } }

/-- C2 counterexample, scenario 2: least-privilege and need-to-know controls. -/
def c2bCatalog : Catalog :=
  { logical_access_controls :=
      [{ id := "lac_least_privilege".toList
       , text := "least privilege access is enforced".toList }]
  , network_information_security :=
    { pii_controls :=
        [{ id := "net_pii_need_to_know".toList, text := "need to know basis".toList }] } }

/-- C2 counterexample, scenario 2: every tier requires the PII controls when
the vendor handles PII. -/
def c2bRatings : Ratings :=
  { very_favorable :=
      { network_information_security := { pii_controls_required_if_company_handles_pii := true } }
  , favorable :=
      { network_information_security := { pii_controls_required_if_company_handles_pii := true } }
  , neutral :=
      { network_information_security := { pii_controls_required_if_company_handles_pii := true } }
  , unfavorable :=
      { network_information_security := { pii_controls_required_if_company_handles_pii := true } } }

/-- C2 counterexample, scenario 2: the rule document. -/
def c2bRules : Rules :=
  { conditions := some c2bConds, catalog := some c2bCatalog, ratings := some c2bRatings }

/-- C2 counterexample, scenario 2: the original notes. -/
def c2bN1 : Text := "handles customer pii on a need to know basis".toList

/-- C2 counterexample, scenario 2: the notes with the least-privilege control
text appended (a control-satisfying statement leaving the context unchanged). -/
def c2bN2 : Text := c2bN1 ++ ' ' :: "least privilege access is enforced".toList

/-! ## General lemmas about the text functions -/

theorem occursIn_nil (t : Text) : occursIn [] t = true := by
  cases t <;> simp [occursIn, isPrefixList]

theorem replaceEllipsis_cons3 (c d e2 : Char) (rest : Text) :
    replaceEllipsis (c :: d :: e2 :: rest)
      = if c = 'â' ∧ d = '€' ∧ e2 = '¦' then '.' :: '.' :: '.' :: replaceEllipsis rest
        else c :: replaceEllipsis (d :: e2 :: rest) := rfl

theorem replaceEllipsis_space_cons (v : Text) :
    replaceEllipsis (' ' :: v) = ' ' :: replaceEllipsis v := by
  cases v with
  | nil => rfl
  | cons d v1 =>
    cases v1 with
    | nil => rfl
    | cons e2 v2 =>
      rw [replaceEllipsis_cons3, if_neg]
      intro hc
      exact absurd hc.1 (by decide)

theorem replaceEllipsis_append_space_aux (v : Text) :
    ∀ (k : Nat) (u : Text), u.length ≤ k →
      replaceEllipsis (u ++ ' ' :: v) = replaceEllipsis u ++ ' ' :: replaceEllipsis v := by
  intro k
  induction k with
  | zero =>
    intro u hu
    have hu0 : u = [] := List.eq_nil_of_length_eq_zero (Nat.le_zero.mp hu)
    subst hu0
    exact replaceEllipsis_space_cons v
  | succ k ih =>
    intro u hu
    cases u with
    | nil => exact replaceEllipsis_space_cons v
    | cons c u1 =>
      cases u1 with
      | nil =>
        cases v with
        | nil => rfl
        | cons d v2 =>
          show replaceEllipsis (c :: ' ' :: d :: v2)
            = replaceEllipsis [c] ++ ' ' :: replaceEllipsis (d :: v2)
          rw [replaceEllipsis_cons3, if_neg (fun hc => absurd hc.2.1 (by decide))]
          rw [replaceEllipsis_space_cons]
          rfl
      | cons d u2 =>
        cases u2 with
        | nil =>
          show replaceEllipsis (c :: d :: ' ' :: v)
            = replaceEllipsis [c, d] ++ ' ' :: replaceEllipsis v
          rw [replaceEllipsis_cons3, if_neg (fun hc => absurd hc.2.2 (by decide))]
          have h2 := ih [d] (by simp at hu ⊢; omega)
          rw [show ([d] ++ ' ' :: v) = d :: ' ' :: v from rfl] at h2
          rw [h2]
          rfl
        | cons e2 u3 =>
          show replaceEllipsis (c :: d :: e2 :: (u3 ++ ' ' :: v))
            = replaceEllipsis (c :: d :: e2 :: u3) ++ ' ' :: replaceEllipsis v
          by_cases hc : c = 'â' ∧ d = '€' ∧ e2 = '¦'
          · rw [replaceEllipsis_cons3, if_pos hc]
            conv_rhs => rw [replaceEllipsis_cons3, if_pos hc]
            rw [ih u3 (by simp at hu ⊢; omega)]
            rfl
          · rw [replaceEllipsis_cons3, if_neg hc]
            conv_rhs => rw [replaceEllipsis_cons3, if_neg hc]
            have h2 := ih (d :: e2 :: u3) (by simp at hu ⊢; omega)
            rw [show ((d :: e2 :: u3) ++ ' ' :: v) = d :: e2 :: (u3 ++ ' ' :: v) from rfl] at h2
            rw [h2]
            rfl

theorem replaceEllipsis_append_space (u v : Text) :
    replaceEllipsis (u ++ ' ' :: v) = replaceEllipsis u ++ ' ' :: replaceEllipsis v :=
  replaceEllipsis_append_space_aux v u.length u (Nat.le_refl _)

theorem wordsAux_nil_eq (cur : Text) :
    wordsAux cur [] = if cur.isEmpty = true then [] else [cur.reverse] := rfl

theorem wordsAux_cons_eq (cur : Text) (c : Char) (rest : Text) :
    wordsAux cur (c :: rest)
      = if isWS c = true then
          (if cur.isEmpty = true then wordsAux [] rest else cur.reverse :: wordsAux [] rest)
        else wordsAux (c :: cur) rest := rfl

theorem wordsAux_append_space (v : Text) :
    ∀ (u : Text) (cur : Text),
      wordsAux cur (u ++ ' ' :: v) = wordsAux cur u ++ wordsAux [] v := by
  intro u
  induction u with
  | nil =>
    intro cur
    show wordsAux cur (' ' :: v) = wordsAux cur [] ++ wordsAux [] v
    rw [wordsAux_cons_eq, if_pos (by decide), wordsAux_nil_eq]
    by_cases hc : cur.isEmpty = true
    · rw [if_pos hc, if_pos hc, List.nil_append]
    · rw [if_neg hc, if_neg hc, List.cons_append, List.nil_append]
  | cons c rest ih =>
    intro cur
    show wordsAux cur (c :: (rest ++ ' ' :: v)) = wordsAux cur (c :: rest) ++ wordsAux [] v
    rw [wordsAux_cons_eq, wordsAux_cons_eq]
    by_cases hw : isWS c = true
    · rw [if_pos hw, if_pos hw]
      by_cases hc : cur.isEmpty = true
      · rw [if_pos hc, if_pos hc, ih]
      · rw [if_neg hc, if_neg hc, ih, List.cons_append]
    · rw [if_neg hw, if_neg hw, ih]

theorem joinSpace_append_exists (ws1 ws2 : List Text) :
    ∃ t, joinSpace (ws1 ++ ws2) = joinSpace ws1 ++ t := by
  induction ws1 with
  | nil => exact ⟨joinSpace ws2, rfl⟩
  | cons w ws ih =>
    cases ws with
    | nil =>
      cases ws2 with
      | nil => exact ⟨[], by simp [joinSpace]⟩
      | cons b bs => exact ⟨' ' :: joinSpace (b :: bs), by simp [joinSpace]⟩
    | cons w2 ws3 =>
      obtain ⟨t, ht⟩ := ih
      refine ⟨t, ?_⟩
      show joinSpace (w :: ((w2 :: ws3) ++ ws2)) = joinSpace (w :: w2 :: ws3) ++ t
      rw [show joinSpace (w :: w2 :: ws3) = w ++ ' ' :: joinSpace (w2 :: ws3) from rfl]
      cases h2 : (w2 :: ws3) ++ ws2 with
      | nil => exact absurd h2 (by simp)
      | cons y ys =>
        rw [show joinSpace (w :: y :: ys) = w ++ ' ' :: joinSpace (y :: ys) from rfl]
        rw [← h2, ht]
        simp

theorem lowerChar_space : lowerChar ' ' = ' ' := rfl

theorem normalize_append_space (n e : Text) :
    ∃ t, normalize (n ++ ' ' :: e) = normalize n ++ t := by
  unfold normalize wordsOf
  rw [List.map_append, List.map_cons, lowerChar_space]
  rw [replaceEllipsis_append_space, wordsAux_append_space]
  exact joinSpace_append_exists _ _

theorem isPrefixList_append (p : Text) :
    ∀ (s t : Text), isPrefixList p s = true → isPrefixList p (s ++ t) = true := by
  induction p with
  | nil => intro s t _; simp [isPrefixList]
  | cons a as ih =>
    intro s t h
    cases s with
    | nil => simp [isPrefixList] at h
    | cons b bs =>
      simp only [isPrefixList, Bool.and_eq_true] at h
      simp only [List.cons_append, isPrefixList, Bool.and_eq_true]
      exact ⟨h.1, ih bs t h.2⟩

theorem occursIn_append (p : Text) :
    ∀ (s t : Text), occursIn p s = true → occursIn p (s ++ t) = true := by
  intro s
  induction s with
  | nil =>
    intro t h
    cases p with
    | nil => simpa using occursIn_nil t
    | cons a as => simp [occursIn, isPrefixList] at h
  | cons c rest ih =>
    intro t h
    simp only [occursIn, Bool.or_eq_true] at h
    simp only [List.cons_append, occursIn, Bool.or_eq_true]
    rcases h with h | h
    · exact Or.inl (by
        have := isPrefixList_append p (c :: rest) t h
        simpa using this)
    · exact Or.inr (ih t h)

theorem statement_present_mono (s t stmt : Text)
    (h : statement_present s stmt = true) : statement_present (s ++ t) stmt = true := by
  unfold statement_present at h ⊢
  by_cases hstmt : stmt = []
  · rw [if_pos hstmt] at h
    exact absurd h (by simp)
  · rw [if_neg hstmt] at h ⊢
    exact occursIn_append _ _ _ h

/-! ## Monotonicity of the derived corpus facts under appended text -/

theorem apply_cross_satisfaction_mono (conds : Conditions) (s t : Text) :
    ∀ x ∈ apply_cross_satisfaction conds s, x ∈ apply_cross_satisfaction conds (s ++ t) := by
  unfold apply_cross_satisfaction
  have main : ∀ (rules : List CrossRule) (acc acc2 : List Text),
      (∀ x ∈ acc, x ∈ acc2) →
      ∀ x ∈ rules.foldl (fun acc rule =>
          if rule.if_any_statement_present.any (fun stmt => statement_present s stmt)
          then acc ++ rule.then_mark_controls_met else acc) acc,
        x ∈ rules.foldl (fun acc rule =>
          if rule.if_any_statement_present.any (fun stmt => statement_present (s ++ t) stmt)
          then acc ++ rule.then_mark_controls_met else acc) acc2 := by
    intro rules
    induction rules with
    | nil => intro acc acc2 h x hx; exact h x hx
    | cons r rs ih =>
      intro acc acc2 h x
      simp only [List.foldl_cons]
      apply ih
      intro y hy
      by_cases hf : r.if_any_statement_present.any (fun stmt => statement_present s stmt) = true
      · have hf2 : r.if_any_statement_present.any
            (fun stmt => statement_present (s ++ t) stmt) = true := by
          rcases List.any_eq_true.mp hf with ⟨st, hst, hp⟩
          exact List.any_eq_true.mpr ⟨st, hst, statement_present_mono s t st hp⟩
        rw [if_pos hf] at hy
        rw [if_pos hf2]
        rcases List.mem_append.mp hy with h1 | h1
        · exact List.mem_append_left _ (h y h1)
        · exact List.mem_append_right _ h1
      · rw [if_neg hf] at hy
        by_cases hf2 : r.if_any_statement_present.any
            (fun stmt => statement_present (s ++ t) stmt) = true
        · rw [if_pos hf2]
          exact List.mem_append_left _ (h y hy)
        · rw [if_neg hf2]
          exact h y hy
  exact main conds.cross_satisfaction [] [] (fun x hx => hx)

theorem statement_satisfies_control_eq_any (lacC : LacConditions) (s cid ct : Text) :
    statement_satisfies_control lacC s cid ct =
      (statement_present s ct ||
       (decide (cid ≠ []) && occursIn cid s) ||
       (decide ((splitNW cid).length > 1) &&
         (decide (joinSpace (splitNW cid).tail ≠ []) &&
           occursIn (joinSpace (splitNW cid).tail) s))) := by
  unfold statement_satisfies_control
  by_cases h1 : statement_present s ct = true
  · simp [h1]
  · simp only [Bool.not_eq_true] at h1
    by_cases h2 : (decide (cid ≠ []) && occursIn cid s) = true
    · simp [h1, h2]
    · simp only [Bool.not_eq_true] at h2
      by_cases h3 : (decide ((splitNW cid).length > 1) &&
          (decide (joinSpace (splitNW cid).tail ≠ []) &&
            occursIn (joinSpace (splitNW cid).tail) s)) = true
      · simp [h1, h2, h3]
      · simp only [Bool.not_eq_true] at h3
        simp only [h1, h2, h3, Bool.false_eq_true, if_false, Bool.or_false]
        by_cases h4 : cid = ("lac_passwords_encrypted_in_transit".toList)
        · rw [if_pos h4]
          split <;> rfl
        · rw [if_neg h4]

theorem statement_satisfies_control_mono (lacC : LacConditions) (s t cid ct : Text)
    (h : statement_satisfies_control lacC s cid ct = true) :
    statement_satisfies_control lacC (s ++ t) cid ct = true := by
  rw [statement_satisfies_control_eq_any] at h ⊢
  simp only [Bool.or_eq_true, Bool.and_eq_true] at h ⊢
  rcases h with (h | ⟨ha, hb⟩) | ⟨ha, hb, hc⟩
  · exact Or.inl (Or.inl (statement_present_mono s t ct h))
  · exact Or.inl (Or.inr ⟨ha, occursIn_append _ _ _ hb⟩)
  · exact Or.inr ⟨ha, hb, occursIn_append _ _ _ hc⟩

theorem mem_insertSorted (x : Text) (l : List Text) (a : Text) :
    a ∈ insertSorted x l ↔ a = x ∨ a ∈ l := by
  induction l with
  | nil => simp [insertSorted]
  | cons y ys ih =>
    by_cases h : textLe x y = true
    · simp [insertSorted, h]
    · simp only [insertSorted, h]
      simp [ih]
      tauto

theorem mem_sortTexts (l : List Text) (a : Text) : a ∈ sortTexts l ↔ a ∈ l := by
  induction l with
  | nil => simp [sortTexts]
  | cons x xs ih => simp [sortTexts, mem_insertSorted, ih]

theorem foldl_preserve {α β : Type} (P : β → Prop) (f : β → α → β)
    (h : ∀ b a, P b → P (f b a)) : ∀ (l : List α) (b : β), P b → P (l.foldl f b) := by
  intro l
  induction l with
  | nil => intro b hb; exact hb
  | cons a as ih => intro b hb; exact ih (f b a) (h b a hb)

/-! ## Correspondence between the control maps of a run and an extended run -/

theorem evaluate_controls_eq (cat : Catalog) (conds : Conditions) (ctx : Context)
    (cross : List Text) (notes : Text) :
    evaluate_controls cat conds ctx cross notes =
      cat.business_continuity.foldl (fun m c => check_control conds notes cross m c true)
        (cat.remote_workforce.foldl
          (fun m c => check_control conds notes cross m c ctx.remote_work_allowed)
          (cat.change_mgmt_sdlc.foldl
            (fun m c => check_control conds notes cross m c ctx.software_provider)
            (cat.network_information_security.controls.foldl
              (fun m c => check_control conds notes cross m c true)
              (cat.network_information_security.pii_controls.foldl
                (piiStep conds notes cross ctx)
                (cat.logical_access_controls.foldl (lacStep conds notes cross ctx) []))))) := rfl

theorem forall2_map_replace (R : ControlStatus → ControlStatus → Prop)
    (hR : ∀ a b, R a b → a.control_id = b.control_id)
    (cs cs2 : ControlStatus) (hid : cs.control_id = cs2.control_id) (hcs : R cs cs2) :
    ∀ (m m2 : List ControlStatus), List.Forall₂ R m m2 →
      List.Forall₂ R (m.map (fun x => if x.control_id = cs.control_id then cs else x))
        (m2.map (fun x => if x.control_id = cs2.control_id then cs2 else x)) := by
  intro m m2 hF
  induction hF with
  | nil => exact List.Forall₂.nil
  | @cons a b l1 l2 hab htail ih =>
    by_cases ha : a.control_id = cs.control_id
    · have hb : b.control_id = cs2.control_id := by rw [← hR _ _ hab, ha, hid]
      simp only [List.map_cons, if_pos ha, if_pos hb]
      exact List.Forall₂.cons hcs ih
    · have hb : ¬ b.control_id = cs2.control_id := by
        rw [← hR _ _ hab, ← hid]
        exact ha
      simp only [List.map_cons, if_neg ha, if_neg hb]
      exact List.Forall₂.cons hab ih

theorem register_rel (R : ControlStatus → ControlStatus → Prop)
    (hR : ∀ a b, R a b → a.control_id = b.control_id)
    (m m2 : List ControlStatus) (cs cs2 : ControlStatus)
    (hF : List.Forall₂ R m m2) (hcs : R cs cs2) :
    List.Forall₂ R (register m cs) (register m2 cs2) := by
  have hid : cs.control_id = cs2.control_id := hR cs cs2 hcs
  have hany : (m.any (fun x => x.control_id = cs.control_id))
      = (m2.any (fun x => x.control_id = cs2.control_id)) := by
    induction hF with
    | nil => rfl
    | @cons a b l1 l2 hab htail ih =>
      simp only [List.any_cons, ih]
      congr 1
      rw [hR _ _ hab, hid]
  unfold register
  cases hv : m.any (fun x => x.control_id = cs.control_id) with
  | true =>
    rw [if_pos rfl, if_pos (hany ▸ hv)]
    exact forall2_map_replace R hR cs cs2 hid hcs m m2 hF
  | false =>
    rw [if_neg (by simp), if_neg (by simp [← hany, hv])]
    exact List.rel_append hF (List.Forall₂.cons hcs List.Forall₂.nil)

theorem find_rel (R : ControlStatus → ControlStatus → Prop)
    (hR : ∀ a b, R a b → a.control_id = b.control_id) (x : Text) :
    ∀ (m m2 : List ControlStatus), List.Forall₂ R m m2 →
      (m.find? (fun s => decide (s.control_id = x)) = none ∧
       m2.find? (fun s => decide (s.control_id = x)) = none) ∨
      (∃ a b, R a b ∧ m.find? (fun s => decide (s.control_id = x)) = some a ∧
        m2.find? (fun s => decide (s.control_id = x)) = some b) := by
  intro m m2 hF
  induction hF with
  | nil => exact Or.inl ⟨rfl, rfl⟩
  | @cons a b l1 l2 hab htail ih =>
    by_cases hx : a.control_id = x
    · have hbx : b.control_id = x := by rw [← hR _ _ hab]; exact hx
      exact Or.inr ⟨a, b, hab, by simp [List.find?, hx], by simp [List.find?, hbx]⟩
    · have hbx : ¬ b.control_id = x := by rw [← hR _ _ hab]; exact hx
      rcases ih with ⟨h1, h2⟩ | ⟨a2, b2, hr, h1, h2⟩
      · exact Or.inl ⟨by simp [List.find?, hx, h1], by simp [List.find?, hbx, h2]⟩
      · exact Or.inr ⟨a2, b2, hr, by simp [List.find?, hx, h1], by simp [List.find?, hbx, h2]⟩

theorem check_sat_mono (conds : Conditions) (s t : Text) (cross cross2 : List Text)
    (hsub : ∀ x ∈ cross, x ∈ cross2) (cid ct : Text)
    (h : (if cid ∈ cross then true
      else statement_satisfies_control conds.logical_access_controls s cid ct) = true) :
    (if cid ∈ cross2 then true
      else statement_satisfies_control conds.logical_access_controls (s ++ t) cid ct) = true := by
  by_cases hm2 : cid ∈ cross2
  · rw [if_pos hm2]
  · rw [if_neg hm2]
    by_cases hm : cid ∈ cross
    · exact absurd (hsub _ hm) hm2
    · rw [if_neg hm] at h
      exact statement_satisfies_control_mono _ _ _ _ _ h

theorem check_control_rel (conds : Conditions) (s t : Text) (cross cross2 : List Text)
    (hsub : ∀ x ∈ cross, x ∈ cross2) (m m2 : List ControlStatus) (c : ControlDef)
    (req : Bool) (hF : List.Forall₂ StatusRelW m m2) :
    List.Forall₂ StatusRelW (check_control conds s cross m c req)
      (check_control conds (s ++ t) cross2 m2 c req) := by
  unfold check_control
  apply register_rel StatusRelW (fun a b hab => hab.1) _ _ _ _ hF
  exact ⟨rfl, rfl, rfl,
    fun hs => check_sat_mono conds s t cross cross2 hsub c.id c.text hs, Or.inl rfl⟩

theorem lacStep_rel (conds : Conditions) (s t : Text) (cross cross2 : List Text)
    (hsub : ∀ x ∈ cross, x ∈ cross2) (ctx : Context) (m m2 : List ControlStatus)
    (c : ControlDef) (hF : List.Forall₂ StatusRelW m m2) :
    List.Forall₂ StatusRelW (lacStep conds s cross ctx m c)
      (lacStep conds (s ++ t) cross2 ctx m2 c) := by
  unfold lacStep
  exact check_control_rel conds s t cross cross2 hsub m m2 c _ hF

theorem piiStep_rel (conds : Conditions) (s t : Text) (cross cross2 : List Text)
    (hsub : ∀ x ∈ cross, x ∈ cross2) (ctx : Context) (m m2 : List ControlStatus)
    (c : ControlDef) (hF : List.Forall₂ StatusRelW m m2) :
    List.Forall₂ StatusRelW (piiStep conds s cross ctx m c)
      (piiStep conds (s ++ t) cross2 ctx m2 c) := by
  unfold piiStep
  by_cases hcond : (decide (c.id = ("net_pii_need_to_know".toList)) &&
      conds.network_information_security.do_not_enforce_need_to_know_if_least_privilege_statement_present)
      = true
  · rw [if_pos hcond, if_pos hcond]
    rcases find_rel StatusRelW (fun a b hab => hab.1) ("lac_least_privilege".toList) m m2 hF
      with ⟨h1, h2⟩ | ⟨a, b, hab, h1, h2⟩
    · rw [h1, h2]
      exact check_control_rel conds s t cross cross2 hsub m m2 c _ hF
    · rw [h1, h2]
      show List.Forall₂ StatusRelW
        (if a.satisfied = true then
          register m { control_id := c.id, required := false, satisfied := true
                     , text := c.text, tags := c.tags }
         else check_control conds s cross m c
          (!(conds.network_information_security.enforce_pii_controls_if_company_handles_pii
              && !ctx.handles_pii)))
        (if b.satisfied = true then
          register m2 { control_id := c.id, required := false, satisfied := true
                      , text := c.text, tags := c.tags }
         else check_control conds (s ++ t) cross2 m2 c
          (!(conds.network_information_security.enforce_pii_controls_if_company_handles_pii
              && !ctx.handles_pii)))
      by_cases hsat : a.satisfied = true
      · have hbsat : b.satisfied = true := hab.2.2.2.1 hsat
        rw [if_pos hsat, if_pos hbsat]
        exact register_rel StatusRelW (fun a b hab => hab.1) _ _ _ _ hF
          ⟨rfl, rfl, rfl, fun _ => rfl, Or.inl rfl⟩
      · rw [if_neg hsat]
        by_cases hbsat : b.satisfied = true
        · rw [if_pos hbsat]
          unfold check_control
          exact register_rel StatusRelW (fun a b hab => hab.1) _ _ _ _ hF
            ⟨rfl, rfl, rfl, fun _ => rfl, Or.inr ⟨rfl, rfl⟩⟩
        · rw [if_neg hbsat]
          exact check_control_rel conds s t cross cross2 hsub m m2 c _ hF
  · rw [if_neg hcond, if_neg hcond]
    exact check_control_rel conds s t cross cross2 hsub m m2 c _ hF

theorem foldl_rel {α : Type} (R : ControlStatus → ControlStatus → Prop)
    (step step2 : List ControlStatus → α → List ControlStatus)
    (hstep : ∀ m m2 c, List.Forall₂ R m m2 → List.Forall₂ R (step m c) (step2 m2 c)) :
    ∀ (l : List α) (m m2 : List ControlStatus), List.Forall₂ R m m2 →
      List.Forall₂ R (l.foldl step m) (l.foldl step2 m2) := by
  intro l
  induction l with
  | nil => intro m m2 h; exact h
  | cons c cs ih => intro m m2 h; exact ih _ _ (hstep m m2 c h)

theorem evaluate_controls_relW (cat : Catalog) (conds : Conditions) (ctx : Context)
    (s t : Text) (cross cross2 : List Text) (hsub : ∀ x ∈ cross, x ∈ cross2) :
    List.Forall₂ StatusRelW (evaluate_controls cat conds ctx cross s)
      (evaluate_controls cat conds ctx cross2 (s ++ t)) := by
  rw [evaluate_controls_eq, evaluate_controls_eq]
  apply foldl_rel StatusRelW _ _
    (fun m m2 c h => check_control_rel conds s t cross cross2 hsub m m2 c true h)
  apply foldl_rel StatusRelW _ _
    (fun m m2 c h => check_control_rel conds s t cross cross2 hsub m m2 c ctx.remote_work_allowed h)
  apply foldl_rel StatusRelW _ _
    (fun m m2 c h => check_control_rel conds s t cross cross2 hsub m m2 c ctx.software_provider h)
  apply foldl_rel StatusRelW _ _
    (fun m m2 c h => check_control_rel conds s t cross cross2 hsub m m2 c true h)
  apply foldl_rel StatusRelW _ _
    (fun m m2 c h => piiStep_rel conds s t cross cross2 hsub ctx m m2 c h)
  apply foldl_rel StatusRelW _ _
    (fun m m2 c h => lacStep_rel conds s t cross cross2 hsub ctx m m2 c h)
  exact List.Forall₂.nil

theorem forall2_strengthen (m m2 : List ControlStatus)
    (hF : List.Forall₂ StatusRelW m m2)
    (hreq : m2.map (fun s => (s.control_id, s.required))
      = m.map (fun s => (s.control_id, s.required))) :
    List.Forall₂ StatusMono m m2 := by
  induction hF with
  | nil => exact List.Forall₂.nil
  | @cons a b l1 l2 hab htail ih =>
    simp only [List.map_cons, List.cons.injEq, Prod.mk.injEq] at hreq
    obtain ⟨⟨-, hr⟩, htl⟩ := hreq
    exact List.Forall₂.cons ⟨hab.1, hab.2.1, hab.2.2.1, hr.symm, hab.2.2.2.1⟩ (ih htl)

/-! ## Monotonicity of the composite tier checks -/

theorem forall2_filter (p p2 : ControlStatus → Bool)
    (hp : ∀ a b, StatusMono a b → p a = p2 b) :
    ∀ (m m2 : List ControlStatus), List.Forall₂ StatusMono m m2 →
      List.Forall₂ StatusMono (m.filter p) (m2.filter p2) := by
  intro m m2 hF
  induction hF with
  | nil => exact List.Forall₂.nil
  | @cons a b l1 l2 hab htail ih =>
    rw [List.filter_cons, List.filter_cons]
    by_cases hpa : p a = true
    · rw [if_pos hpa, if_pos (by rw [← hp a b hab]; exact hpa)]
      exact List.Forall₂.cons hab ih
    · rw [if_neg hpa, if_neg (by rw [← hp a b hab]; exact hpa)]
      exact ih

theorem forall2_all_sat (m m2 : List ControlStatus)
    (hF : List.Forall₂ StatusMono m m2)
    (h : m.all (fun c => c.satisfied) = true) : m2.all (fun c => c.satisfied) = true := by
  induction hF with
  | nil => rfl
  | @cons a b l1 l2 hab htail ih =>
    simp only [List.all_cons, Bool.and_eq_true] at h ⊢
    exact ⟨hab.2.2.2.2 h.1, ih h.2⟩

theorem forall2_countP_le (p p2 : ControlStatus → Bool)
    (hp : ∀ a b, StatusMono a b → p a = true → p2 b = true) :
    ∀ (m m2 : List ControlStatus), List.Forall₂ StatusMono m m2 →
      m.countP p ≤ m2.countP p2 := by
  intro m m2 hF
  induction hF with
  | nil => exact Nat.le_refl _
  | @cons a b l1 l2 hab htail ih =>
    rw [List.countP_cons, List.countP_cons]
    by_cases hpa : p a = true
    · rw [if_pos hpa, if_pos (hp a b hab hpa)]
      omega
    · rw [if_neg hpa]
      by_cases hpb : p2 b = true
      · rw [if_pos hpb]; omega
      · rw [if_neg hpb]; omega

theorem forall2_any_sat_tag (tag : Text) (m m2 : List ControlStatus)
    (hF : List.Forall₂ StatusMono m m2)
    (h : m.any (fun c => c.satisfied && tag ∈ c.tags) = true) :
    m2.any (fun c => c.satisfied && tag ∈ c.tags) = true := by
  induction hF with
  | nil => simp at h
  | @cons a b l1 l2 hab htail ih =>
    simp only [List.any_cons, Bool.or_eq_true, Bool.and_eq_true] at h ⊢
    rcases h with ⟨h1, h2⟩ | h
    · exact Or.inl ⟨hab.2.2.2.2 h1, by rw [← hab.2.2.1]; exact h2⟩
    · exact Or.inr (ih h)

theorem statusMono_id (a b : ControlStatus) (h : StatusMono a b) :
    a.control_id = b.control_id := h.1

theorem meets_info_mono (req : InfoTechReq) (ov ov2 : List Text)
    (hsub : ∀ x ∈ ov, x ∈ ov2)
    (h : meets_info_tech_overview req ov = true) :
    meets_info_tech_overview req ov2 = true := by
  unfold meets_info_tech_overview at h ⊢
  rw [List.all_eq_true] at h ⊢
  intro st hst
  have h2 := h st hst
  simp only [decide_eq_true_eq] at h2 ⊢
  exact hsub st h2

theorem forall2_required_filter (pfx : Text) (m m2 : List ControlStatus)
    (hF : List.Forall₂ StatusMono m m2) :
    List.Forall₂ StatusMono
      ((category_controls pfx m).filter (fun c => c.required))
      ((category_controls pfx m2).filter (fun c => c.required)) := by
  unfold category_controls
  apply forall2_filter _ _ (fun a b hab => by rw [hab.2.2.2.1])
  apply forall2_filter _ _ (fun a b hab => by rw [hab.1])
  exact hF

theorem meets_lac_mono (req : LacReq) (m m2 : List ControlStatus)
    (hF : List.Forall₂ StatusMono m m2)
    (h : meets_logical_access_controls req m = true) :
    meets_logical_access_controls req m2 = true := by
  have hFf := forall2_required_filter ("lac_".toList) m m2 hF
  unfold meets_logical_access_controls at h ⊢
  by_cases hra : req.required_all = true
  · rw [if_pos hra] at h ⊢
    exact forall2_all_sat _ _ hFf h
  · rw [if_neg hra] at h ⊢
    have hcnt := forall2_countP_le (fun c => c.satisfied = true) (fun c => c.satisfied = true)
      (fun a b hab hpa => by
        simp only [decide_eq_true_eq] at hpa ⊢
        exact hab.2.2.2.2 hpa) _ _ hFf
    by_cases hmin : ((category_controls ("lac_".toList) m).filter
        (fun c => c.required)).countP (fun c => c.satisfied = true) < req.min_count
    · rw [if_pos hmin] at h
      exact absurd h (by simp)
    · rw [if_neg hmin] at h
      rw [if_neg (by omega)]
      by_cases htag : req.must_include_tag ≠ []
      · rw [if_pos htag] at h
        rw [if_pos htag]
        exact forall2_any_sat_tag _ _ _ hFf h
      · rw [if_neg htag]

theorem forall2_ne_nil (m m2 : List ControlStatus)
    (hF : List.Forall₂ StatusMono m m2) (h : m ≠ []) : m2 ≠ [] := by
  cases hF with
  | nil => exact absurd rfl h
  | cons _ _ => simp

theorem meets_network_mono (req : NetReq) (ctx : Context) (m m2 : List ControlStatus)
    (hF : List.Forall₂ StatusMono m m2)
    (h : meets_network_controls req ctx m = true) :
    meets_network_controls req ctx m2 = true := by
  have hFpii := forall2_required_filter ("net_pii_".toList) m m2 hF
  have hFnet : List.Forall₂ StatusMono
      ((m.filter (fun c => isPrefixList ("net_".toList) c.control_id &&
        !isPrefixList ("net_pii_".toList) c.control_id)).filter (fun c => c.required))
      ((m2.filter (fun c => isPrefixList ("net_".toList) c.control_id &&
        !isPrefixList ("net_pii_".toList) c.control_id)).filter (fun c => c.required)) := by
    apply forall2_filter _ _ (fun a b hab => by rw [hab.2.2.2.1])
    apply forall2_filter _ _ (fun a b hab => by rw [hab.1])
    exact hF
  unfold meets_network_controls at h ⊢
  have hgate : ∀ (mm : List ControlStatus),
      List.Forall₂ StatusMono
        ((category_controls ("net_pii_".toList) m).filter (fun c => c.required))
        ((category_controls ("net_pii_".toList) mm).filter (fun c => c.required)) →
      (req.pii_controls_required_if_company_handles_pii && ctx.handles_pii &&
        !((category_controls ("net_pii_".toList) m).filter (fun c => c.required) ≠ [] &&
          ((category_controls ("net_pii_".toList) m).filter (fun c => c.required)).all
            (fun c => c.satisfied))) = false →
      (req.pii_controls_required_if_company_handles_pii && ctx.handles_pii &&
        !((category_controls ("net_pii_".toList) mm).filter (fun c => c.required) ≠ [] &&
          ((category_controls ("net_pii_".toList) mm).filter (fun c => c.required)).all
            (fun c => c.satisfied))) = false := by
    intro mm hFp hg
    cases hfp : (req.pii_controls_required_if_company_handles_pii && ctx.handles_pii) with
    | false => rw [Bool.false_and]
    | true =>
      rw [hfp, Bool.true_and] at hg
      rw [Bool.true_and]
      simp only [Bool.not_eq_false'] at hg ⊢
      rw [Bool.and_eq_true] at hg ⊢
      obtain ⟨hg1, hg2⟩ := hg
      refine ⟨?_, forall2_all_sat _ _ hFp hg2⟩
      simp only [decide_eq_true_eq] at hg1 ⊢
      exact forall2_ne_nil _ _ hFp hg1
  by_cases hg1 : (req.pii_controls_required_if_company_handles_pii && ctx.handles_pii &&
      !((category_controls ("net_pii_".toList) m).filter (fun c => c.required) ≠ [] &&
        ((category_controls ("net_pii_".toList) m).filter (fun c => c.required)).all
          (fun c => c.satisfied))) = true
  · rw [if_pos hg1] at h
    exact absurd h (by simp)
  · have hg1f : (req.pii_controls_required_if_company_handles_pii && ctx.handles_pii &&
        !((category_controls ("net_pii_".toList) m).filter (fun c => c.required) ≠ [] &&
          ((category_controls ("net_pii_".toList) m).filter (fun c => c.required)).all
            (fun c => c.satisfied))) = false := by
      cases hv : (req.pii_controls_required_if_company_handles_pii && ctx.handles_pii &&
          !((category_controls ("net_pii_".toList) m).filter (fun c => c.required) ≠ [] &&
            ((category_controls ("net_pii_".toList) m).filter (fun c => c.required)).all
              (fun c => c.satisfied))) with
      | false => rfl
      | true => exact absurd hv hg1
    rw [if_neg hg1] at h
    rw [if_neg (by rw [hgate m2 hFpii hg1f]; simp)]
    by_cases hca : req.controls_required_all = true
    · rw [if_pos hca] at h ⊢
      exact forall2_all_sat _ _ hFnet h
    · rw [if_neg hca] at h ⊢
      have hcnt := forall2_countP_le (fun c => c.satisfied = true) (fun c => c.satisfied = true)
        (fun a b hab hpa => by
          simp only [decide_eq_true_eq] at hpa ⊢
          exact hab.2.2.2.2 hpa) _ _ hFnet
      by_cases hmin : ((m.filter (fun c => isPrefixList ("net_".toList) c.control_id &&
          !isPrefixList ("net_pii_".toList) c.control_id)).filter
            (fun c => c.required)).countP (fun c => c.satisfied = true) < req.min_count
      · rw [if_pos hmin] at h
        exact absurd h (by simp)
      · rw [if_neg hmin] at h
        rw [if_neg (by omega)]
        by_cases htag : req.must_include_tag = []
        · rw [if_neg (by simp [htag])]
        · by_cases hany : ((m.filter (fun c => isPrefixList ("net_".toList) c.control_id &&
              !isPrefixList ("net_pii_".toList) c.control_id)).filter
                (fun c => c.required)).any
              (fun c => c.satisfied && req.must_include_tag ∈ c.tags) = true
          · have hany2 := forall2_any_sat_tag _ _ _ hFnet hany
            rw [if_neg (by rw [hany2]; simp)]
          · have hanyf : ((m.filter (fun c => isPrefixList ("net_".toList) c.control_id &&
                !isPrefixList ("net_pii_".toList) c.control_id)).filter
                  (fun c => c.required)).any
                (fun c => c.satisfied && req.must_include_tag ∈ c.tags) = false := by
              cases hvv : ((m.filter (fun c => isPrefixList ("net_".toList) c.control_id &&
                  !isPrefixList ("net_pii_".toList) c.control_id)).filter
                    (fun c => c.required)).any
                  (fun c => c.satisfied && req.must_include_tag ∈ c.tags) with
              | false => rfl
              | true => exact absurd hvv hany
            rw [if_pos (by rw [hanyf]; simp [htag])] at h
            exact absurd h (by simp)

theorem meets_chg_mono (req : ChgReq) (ctx : Context) (m m2 : List ControlStatus)
    (hF : List.Forall₂ StatusMono m m2)
    (h : meets_change_mgmt req ctx m = true) :
    meets_change_mgmt req ctx m2 = true := by
  have hFf := forall2_required_filter ("chg_".toList) m m2 hF
  unfold meets_change_mgmt at h ⊢
  by_cases hsp : ctx.software_provider = true
  · rw [if_neg (by simp [hsp])] at h ⊢
    by_cases hra : req.required_all = true
    · rw [if_pos hra] at h ⊢
      exact forall2_all_sat _ _ hFf h
    · rw [if_neg hra] at h ⊢
      have hproc : ∀ (hh : (req.require_change_mgmt_process &&
          !(match m.find? (fun x => decide (x.control_id = "chg_change_mgmt_process".toList)) with
            | some c => c.satisfied
            | none => false)) = false),
          (req.require_change_mgmt_process &&
            !(match m2.find? (fun x => decide (x.control_id = "chg_change_mgmt_process".toList)) with
              | some c => c.satisfied
              | none => false)) = false := by
        intro hh
        cases hrp : req.require_change_mgmt_process with
        | false => rw [Bool.false_and]
        | true =>
          rw [hrp, Bool.true_and] at hh
          rw [Bool.true_and]
          simp only [Bool.not_eq_false'] at hh ⊢
          rcases find_rel StatusMono (fun a b hab => hab.1)
              ("chg_change_mgmt_process".toList) m m2 hF with ⟨h1, h2⟩ | ⟨a, b, hab, h1, h2⟩
          · rw [h1] at hh
            exact absurd hh (by simp)
          · rw [h1] at hh
            rw [h2]
            exact hab.2.2.2.2 hh
      by_cases hrc : (req.require_change_mgmt_process &&
          !(match m.find? (fun x => decide (x.control_id = "chg_change_mgmt_process".toList)) with
            | some c => c.satisfied
            | none => false)) = true
      · rw [if_pos hrc] at h
        exact absurd h (by simp)
      · have hrcf : (req.require_change_mgmt_process &&
            !(match m.find? (fun x => decide (x.control_id = "chg_change_mgmt_process".toList)) with
              | some c => c.satisfied
              | none => false)) = false := by
          cases hv : (req.require_change_mgmt_process &&
              !(match m.find? (fun x => decide (x.control_id = "chg_change_mgmt_process".toList)) with
                | some c => c.satisfied
                | none => false)) with
          | false => rfl
          | true => exact absurd hv hrc
        rw [if_neg hrc] at h
        rw [if_neg (by rw [hproc hrcf]; simp)]
        by_cases hmcf : req.min_count_from = []
        · rw [if_neg (by simp [hmcf])] at h ⊢
          simp only [decide_eq_true_eq] at h ⊢
          have hcnt := forall2_countP_le (fun c => c.satisfied = true) (fun c => c.satisfied = true)
            (fun a b hab hpa => by
              simp only [decide_eq_true_eq] at hpa ⊢
              exact hab.2.2.2.2 hpa) _ _ hFf
          omega
        · rw [if_pos hmcf] at h ⊢
          simp only [decide_eq_true_eq] at h ⊢
          have hcnt : req.min_count_from.countP (fun cid =>
              match m.find? (fun x => decide (x.control_id = cid)) with
              | some c => c.satisfied = true
              | none => False)
              ≤ req.min_count_from.countP (fun cid =>
              match m2.find? (fun x => decide (x.control_id = cid)) with
              | some c => c.satisfied = true
              | none => False) := by
            apply List.countP_mono_left
            intro cid _ hc
            rcases find_rel StatusMono (fun a b hab => hab.1) cid m m2 hF
                with ⟨h1, h2⟩ | ⟨a, b, hab, h1, h2⟩
            · rw [h1] at hc
              simp at hc
            · rw [h1] at hc
              rw [h2]
              simp only [decide_eq_true_eq] at hc ⊢
              exact hab.2.2.2.2 hc
          omega
  · rw [if_pos (by simp [Bool.not_eq_true] at hsp; simp [hsp])]

theorem meets_rw_mono (req : RwReq) (ctx : Context) (m m2 : List ControlStatus)
    (hF : List.Forall₂ StatusMono m m2)
    (h : meets_remote_workforce req ctx m = true) :
    meets_remote_workforce req ctx m2 = true := by
  have hFf := forall2_required_filter ("rw_".toList) m m2 hF
  unfold meets_remote_workforce at h ⊢
  by_cases hrw : ctx.remote_work_allowed = true
  · rw [if_neg (by simp [hrw])] at h ⊢
    by_cases hra : req.required_all = true
    · rw [if_pos hra] at h ⊢
      exact forall2_all_sat _ _ hFf h
    · rw [if_neg hra] at h ⊢
      simp only [decide_eq_true_eq] at h ⊢
      have hcnt := forall2_countP_le (fun c => c.satisfied = true) (fun c => c.satisfied = true)
        (fun a b hab hpa => by
          simp only [decide_eq_true_eq] at hpa ⊢
          exact hab.2.2.2.2 hpa) _ _ hFf
      omega
  · rw [if_pos (by simp [Bool.not_eq_true] at hrw; simp [hrw])]

theorem meets_incident_mono (req : IncReq) (inc inc2 : List Text)
    (hlen : inc.length ≤ inc2.length)
    (h : meets_incident_response req inc = true) :
    meets_incident_response req inc2 = true := by
  unfold meets_incident_response at h ⊢
  cases hme : req.min_elements with
  | none => exact rfl
  | some k =>
    rw [hme] at h
    have h2 : decide (inc.length ≥ k) = true := h
    simp only [decide_eq_true_eq] at h2
    show decide (inc2.length ≥ k) = true
    simp only [decide_eq_true_eq]
    omega

theorem meets_bc_mono (req : BcReq) (bc bc2 : Bool)
    (hbc : bc = true → bc2 = true)
    (h : meets_business_continuity req bc = true) :
    meets_business_continuity req bc2 = true := by
  unfold meets_business_continuity at h ⊢
  cases hr : req.required with
  | false =>
    rw [Bool.false_and]
    rfl
  | true =>
    rw [hr, Bool.true_and] at h
    rw [Bool.true_and]
    rw [Bool.not_not] at h ⊢
    exact hbc h

theorem meets_rating_mono (req : RatingReq) (ctx : Context)
    (m m2 : List ControlStatus) (inc inc2 ov ov2 : List Text) (bc bc2 : Bool)
    (hF : List.Forall₂ StatusMono m m2)
    (hov : ∀ x ∈ ov, x ∈ ov2) (hinc : inc.length ≤ inc2.length)
    (hbc : bc = true → bc2 = true)
    (h : meets_rating req ctx m inc ov bc = true) :
    meets_rating req ctx m2 inc2 ov2 bc2 = true := by
  unfold meets_rating at h ⊢
  rw [Bool.and_eq_true, Bool.and_eq_true, Bool.and_eq_true, Bool.and_eq_true,
    Bool.and_eq_true, Bool.and_eq_true] at h ⊢
  obtain ⟨⟨⟨⟨⟨⟨h1, h2⟩, h3⟩, h4⟩, h5⟩, h6⟩, h7⟩ := h
  exact ⟨⟨⟨⟨⟨⟨meets_info_mono _ _ _ hov h1, meets_lac_mono _ _ _ hF h2⟩,
    meets_network_mono _ _ _ _ hF h3⟩, meets_chg_mono _ _ _ _ hF h4⟩,
    meets_rw_mono _ _ _ _ hF h5⟩, meets_incident_mono _ _ _ hinc h6⟩,
    meets_bc_mono _ _ _ hbc h7⟩

theorem mem_dedupT (l : List Text) (x : Text) : x ∈ dedupT l ↔ x ∈ l := by
  induction l with
  | nil => simp [dedupT]
  | cons a l ih =>
    simp only [dedupT, List.mem_cons, List.mem_filter, ih, decide_eq_true_eq]
    constructor
    · rintro (rfl | ⟨h1, h2⟩)
      · exact Or.inl rfl
      · exact Or.inr h1
    · rintro (rfl | h1)
      · exact Or.inl rfl
      · by_cases hx : x = a
        · exact Or.inl hx
        · exact Or.inr ⟨h1, hx⟩

theorem nodup_dedupT (l : List Text) : (dedupT l).Nodup := by
  induction l with
  | nil => exact List.nodup_nil
  | cons a l ih =>
    refine List.Nodup.cons ?_ (List.Nodup.filter _ ih)
    intro hmem
    rcases List.mem_filter.mp hmem with ⟨-, hne⟩
    simp at hne

theorem collect_incident_mono (cat : Catalog) (s t : Text) :
    ∀ x ∈ collect_incident cat s, x ∈ collect_incident cat (s ++ t) := by
  intro x hx
  unfold collect_incident at hx ⊢
  rw [mem_dedupT] at hx ⊢
  rw [List.mem_filter] at hx ⊢
  exact ⟨hx.1, statement_present_mono s t x hx.2⟩

theorem collect_incident_length_le (cat : Catalog) (s t : Text) :
    (collect_incident cat s).length ≤ (collect_incident cat (s ++ t)).length := by
  have hnd : (collect_incident cat s).Nodup := nodup_dedupT _
  exact (hnd.subperm (fun x hx => collect_incident_mono cat s t x hx)).length_le

theorem eval_overview_mono (rats : Ratings) (s t : Text) :
    ∀ x ∈ eval_info_tech_overview rats s, x ∈ eval_info_tech_overview rats (s ++ t) := by
  intro x hx
  unfold eval_info_tech_overview at hx ⊢
  rw [mem_dedupT] at hx ⊢
  rw [List.mem_filter] at hx ⊢
  exact ⟨hx.1, statement_present_mono s t x hx.2⟩

theorem eval_bc_mono (m m2 : List ControlStatus) (hF : List.Forall₂ StatusMono m m2)
    (h : eval_business_continuity m = true) : eval_business_continuity m2 = true := by
  unfold eval_business_continuity at h ⊢
  rcases find_rel StatusMono (fun a b hab => hab.1) ("bcp_plan".toList) m m2 hF
    with ⟨h1, h2⟩ | ⟨a, b, hab, h1, h2⟩
  · rw [h1] at h
    exact absurd h (by simp)
  · rw [h1] at h
    rw [h2]
    exact hab.2.2.2.2 h

theorem determine_rank_eq (rats : Ratings) (ctx : Context) (m : List ControlStatus)
    (inc ov : List Text) (bc : Bool) :
    tierRank (determine_rating rats ctx m inc ov bc).1 =
      (if meets_rating rats.very_favorable ctx m inc ov bc = true then 0
       else if meets_rating rats.favorable ctx m inc ov bc = true then 1
       else if meets_rating rats.neutral ctx m inc ov bc = true then 2
       else if meets_rating rats.unfavorable ctx m inc ov bc = true then 3
       else 4) := by
  unfold determine_rating ratingsOrderReqs
  by_cases q1 : meets_rating rats.very_favorable ctx m inc ov bc = true
  · rw [List.find?_cons_of_pos _ (by exact q1), if_pos q1]
    rfl
  · rw [List.find?_cons_of_neg _ (by simpa using q1), if_neg q1]
    by_cases q2 : meets_rating rats.favorable ctx m inc ov bc = true
    · rw [List.find?_cons_of_pos _ (by exact q2), if_pos q2]
      rfl
    · rw [List.find?_cons_of_neg _ (by simpa using q2), if_neg q2]
      by_cases q3 : meets_rating rats.neutral ctx m inc ov bc = true
      · rw [List.find?_cons_of_pos _ (by exact q3), if_pos q3]
        rfl
      · rw [List.find?_cons_of_neg _ (by simpa using q3), if_neg q3]
        by_cases q4 : meets_rating rats.unfavorable ctx m inc ov bc = true
        · rw [List.find?_cons_of_pos _ (by exact q4), if_pos q4]
          rfl
        · rw [List.find?_cons_of_neg _ (by simpa using q4), if_neg q4]
          rfl

theorem determine_rating_rank_mono (rats : Ratings) (ctx : Context)
    (m m2 : List ControlStatus) (inc inc2 ov ov2 : List Text) (bc bc2 : Bool)
    (hmono : ∀ req : RatingReq, meets_rating req ctx m inc ov bc = true →
      meets_rating req ctx m2 inc2 ov2 bc2 = true) :
    tierRank (determine_rating rats ctx m2 inc2 ov2 bc2).1
      ≤ tierRank (determine_rating rats ctx m inc ov bc).1 := by
  rw [determine_rank_eq, determine_rank_eq]
  have i1 := hmono rats.very_favorable
  have i2 := hmono rats.favorable
  have i3 := hmono rats.neutral
  have i4 := hmono rats.unfavorable
  split_ifs <;> first | omega | simp_all

/-! ## Lemmas about the status registry -/

theorem mem_register (m : List ControlStatus) (cs e : ControlStatus)
    (he : e ∈ register m cs) : e = cs ∨ e ∈ m := by
  unfold register at he
  split at he
  · rcases List.mem_map.mp he with ⟨x, hx, hfx⟩
    by_cases hid : x.control_id = cs.control_id
    · rw [if_pos hid] at hfx
      exact Or.inl hfx.symm
    · rw [if_neg hid] at hfx
      exact Or.inr (hfx ▸ hx)
  · rcases List.mem_append.mp he with h | h
    · exact Or.inr h
    · exact Or.inl (by simpa using h)

theorem register_fresh (m : List ControlStatus) (cs : ControlStatus)
    (h : m.any (fun x => x.control_id = cs.control_id) = false) :
    register m cs = m ++ [cs] := by
  unfold register
  rw [h]
  simp

theorem ids_register_mem (m : List ControlStatus) (cs : ControlStatus)
    (h : m.any (fun x => x.control_id = cs.control_id) = true) :
    (register m cs).map (fun c => c.control_id) = m.map (fun c => c.control_id) := by
  unfold register
  rw [h]
  simp only [if_true, List.map_map]
  apply List.map_congr_left
  intro x _
  by_cases hid : x.control_id = cs.control_id
  · simp [hid]
  · simp [hid]

theorem ids_nodup_register (m : List ControlStatus) (cs : ControlStatus)
    (h : (m.map (fun c => c.control_id)).Nodup) :
    ((register m cs).map (fun c => c.control_id)).Nodup := by
  cases hany : m.any (fun x => x.control_id = cs.control_id) with
  | true => rw [ids_register_mem m cs hany]; exact h
  | false =>
    rw [register_fresh m cs hany, List.map_append]
    have hnot : cs.control_id ∉ m.map (fun c => c.control_id) := by
      intro hmem
      rcases List.mem_map.mp hmem with ⟨x, hx, hfx⟩
      have := List.any_eq_false.mp hany x hx
      simp at this
      exact this hfx
    simp [List.nodup_append, h, hnot]

theorem eq_of_mem_ids_nodup (m : List ControlStatus)
    (h : (m.map (fun c => c.control_id)).Nodup)
    (e1 e2 : ControlStatus) (h1 : e1 ∈ m) (h2 : e2 ∈ m)
    (hid : e1.control_id = e2.control_id) : e1 = e2 :=
  List.inj_on_of_nodup_map h h1 h2 hid

theorem check_control_register (conds : Conditions) (notes : Text) (cross : List Text)
    (m : List ControlStatus) (c : ControlDef) (required : Bool) :
    ∃ cs, check_control conds notes cross m c required = register m cs ∧
      cs.control_id = c.id ∧ (cs.control_id ∈ cross → cs.satisfied = true) := by
  refine ⟨_, rfl, rfl, ?_⟩
  intro hmem
  simp only []
  rw [if_pos hmem]

theorem lacStep_register (conds : Conditions) (notes : Text) (cross : List Text)
    (ctx : Context) (m : List ControlStatus) (c : ControlDef) :
    ∃ cs, lacStep conds notes cross ctx m c = register m cs ∧
      cs.control_id = c.id ∧ (cs.control_id ∈ cross → cs.satisfied = true) := by
  unfold lacStep
  exact check_control_register conds notes cross m c _

theorem piiStep_register (conds : Conditions) (notes : Text) (cross : List Text)
    (ctx : Context) (m : List ControlStatus) (c : ControlDef) :
    ∃ cs, piiStep conds notes cross ctx m c = register m cs ∧
      cs.control_id = c.id ∧ (cs.control_id ∈ cross → cs.satisfied = true) := by
  unfold piiStep
  split
  · split
    · split
      · exact ⟨_, rfl, rfl, fun _ => rfl⟩
      · exact check_control_register conds notes cross m c _
    · exact check_control_register conds notes cross m c _
  · exact check_control_register conds notes cross m c _

theorem ids_nodup_of_register_step (cross : List Text)
    (step : List ControlStatus → ControlDef → List ControlStatus)
    (hstep : ∀ m c, ∃ cs, step m c = register m cs ∧ cs.control_id = c.id ∧
      (cs.control_id ∈ cross → cs.satisfied = true))
    (l : List ControlDef) (m : List ControlStatus)
    (h : (m.map (fun c => c.control_id)).Nodup) :
    ((l.foldl step m).map (fun c => c.control_id)).Nodup := by
  refine foldl_preserve (fun m => (m.map (fun c => c.control_id)).Nodup) step ?_ l m h
  intro m c hm
  obtain ⟨cs, heq, -, -⟩ := hstep m c
  rw [heq]
  exact ids_nodup_register m cs hm

theorem evaluate_controls_ids_nodup (cat : Catalog) (conds : Conditions) (ctx : Context)
    (cross : List Text) (notes : Text) :
    ((evaluate_controls cat conds ctx cross notes).map (fun c => c.control_id)).Nodup := by
  unfold evaluate_controls
  apply ids_nodup_of_register_step cross _
    (fun m c => check_control_register conds notes cross m c true)
  apply ids_nodup_of_register_step cross _
    (fun m c => check_control_register conds notes cross m c ctx.remote_work_allowed)
  apply ids_nodup_of_register_step cross _
    (fun m c => check_control_register conds notes cross m c ctx.software_provider)
  apply ids_nodup_of_register_step cross _
    (fun m c => check_control_register conds notes cross m c true)
  apply ids_nodup_of_register_step cross _
    (fun m c => piiStep_register conds notes cross ctx m c)
  apply ids_nodup_of_register_step cross _
    (fun m c => lacStep_register conds notes cross ctx m c)
  simp

theorem crossOk_register (cross : List Text) (m : List ControlStatus) (cs : ControlStatus)
    (hm : CrossOk cross m) (hcs : cs.control_id ∈ cross → cs.satisfied = true) :
    CrossOk cross (register m cs) := by
  intro e he hid
  rcases mem_register m cs e he with rfl | hmem
  · exact hcs hid
  · exact hm e hmem hid

theorem crossOk_foldl (cross : List Text)
    (step : List ControlStatus → ControlDef → List ControlStatus)
    (hstep : ∀ m c, ∃ cs, step m c = register m cs ∧ cs.control_id = c.id ∧
      (cs.control_id ∈ cross → cs.satisfied = true))
    (l : List ControlDef) (m : List ControlStatus) (h : CrossOk cross m) :
    CrossOk cross (l.foldl step m) := by
  refine foldl_preserve (CrossOk cross) step ?_ l m h
  intro m c hm
  obtain ⟨cs, heq, -, hsat⟩ := hstep m c
  rw [heq]
  exact crossOk_register cross m cs hm hsat

theorem find_append_single (m : List ControlStatus) (cs : ControlStatus)
    (p : ControlStatus → Bool) (h : p cs = false) :
    (m ++ [cs]).find? p = m.find? p := by
  rw [List.find?_append]
  simp [List.find?, h]

theorem find_map_register_ne (cs : ControlStatus) (x : Text) (h : cs.control_id ≠ x) :
    ∀ m : List ControlStatus,
      (m.map (fun y => if y.control_id = cs.control_id then cs else y)).find?
          (fun s => decide (s.control_id = x))
        = m.find? (fun s => decide (s.control_id = x)) := by
  intro m
  induction m with
  | nil => rfl
  | cons a as ih =>
    by_cases ha : a.control_id = cs.control_id
    · have h2 : (decide (cs.control_id = x)) = false := by simp [h]
      have h3 : (decide (a.control_id = x)) = false := by simp [ha, h]
      simp only [List.map_cons, if_pos ha, List.find?, h2, h3]
      exact ih
    · simp only [List.map_cons, if_neg ha, List.find?]
      cases hpa : decide (a.control_id = x) with
      | true => rfl
      | false => exact ih

theorem find_register_ne (m : List ControlStatus) (cs : ControlStatus) (x : Text)
    (h : cs.control_id ≠ x) :
    (register m cs).find? (fun s => decide (s.control_id = x))
      = m.find? (fun s => decide (s.control_id = x)) := by
  unfold register
  split
  · exact find_map_register_ne cs x h m
  · exact find_append_single m cs _ (by simp [h])

theorem find_map_replace_self (cs : ControlStatus) :
    ∀ m : List ControlStatus,
      m.any (fun x => x.control_id = cs.control_id) = true →
      (m.map (fun y => if y.control_id = cs.control_id then cs else y)).find?
          (fun s => decide (s.control_id = cs.control_id)) = some cs := by
  intro m
  induction m with
  | nil => intro h; simp at h
  | cons a as ih =>
    intro h
    by_cases ha : a.control_id = cs.control_id
    · simp only [List.map_cons, if_pos ha, List.find?, decide_eq_true_eq]
      simp
    · have h2 : as.any (fun x => x.control_id = cs.control_id) = true := by
        simp only [List.any_cons, Bool.or_eq_true, decide_eq_true_eq] at h
        rcases h with h | h
        · exact absurd h ha
        · simpa using h
      simp only [List.map_cons, if_neg ha, List.find?]
      have h3 : (decide (a.control_id = cs.control_id)) = false := by simp [ha]
      rw [h3]
      exact ih h2

theorem find_register_self (m : List ControlStatus) (cs : ControlStatus) :
    (register m cs).find? (fun s => decide (s.control_id = cs.control_id)) = some cs := by
  unfold register
  split
  next hany => exact find_map_replace_self cs m hany
  next hany =>
    have hfalse : m.any (fun x => x.control_id = cs.control_id) = false := by
      simpa using hany
    have hnone : m.find? (fun s => decide (s.control_id = cs.control_id)) = none := by
      rw [List.find?_eq_none]
      intro a ha
      simpa using List.any_eq_false.mp hfalse a ha
    rw [List.find?_append, hnone]
    simp [List.find?]

theorem find_foldl_not_mem (cross : List Text)
    (step : List ControlStatus → ControlDef → List ControlStatus)
    (hstep : ∀ m c, ∃ cs, step m c = register m cs ∧ cs.control_id = c.id ∧
      (cs.control_id ∈ cross → cs.satisfied = true))
    (x : Text) :
    ∀ (l : List ControlDef), (∀ c ∈ l, c.id ≠ x) → ∀ m : List ControlStatus,
      (l.foldl step m).find? (fun s => decide (s.control_id = x))
        = m.find? (fun s => decide (s.control_id = x)) := by
  intro l
  induction l with
  | nil => intro _ m; rfl
  | cons c cs2 ih =>
    intro h m
    simp only [List.foldl_cons]
    rw [ih (fun c2 hc2 => h c2 (List.mem_cons_of_mem _ hc2)) (step m c)]
    obtain ⟨e, heq, hid, -⟩ := hstep m c
    rw [heq]
    exact find_register_ne m e x (by rw [hid]; exact h c (List.mem_cons_self _ _))

theorem lacStep_eq (conds : Conditions) (notes : Text) (cross : List Text) (ctx : Context)
    (m : List ControlStatus) (c : ControlDef) :
    lacStep conds notes cross ctx m c = register m (lacEntry conds notes cross ctx c) := rfl

theorem piiStep_override (conds : Conditions) (notes : Text) (cross : List Text)
    (ctx : Context) (m : List ControlStatus) (c : ControlDef) (lpEntry : ControlStatus)
    (hid : c.id = "net_pii_need_to_know".toList)
    (hflag : conds.network_information_security.do_not_enforce_need_to_know_if_least_privilege_statement_present
      = true)
    (hfind : m.find? (fun x => decide (x.control_id = "lac_least_privilege".toList))
      = some lpEntry)
    (hsat : lpEntry.satisfied = true) :
    piiStep conds notes cross ctx m c = register m
      { control_id := c.id, required := false, satisfied := true
      , text := c.text, tags := c.tags } := by
  unfold piiStep
  rw [if_pos (by simp [hid, hflag]), hfind]
  simp [hsat]

/-! ## Lemmas about rating determination -/

theorem mem_missing_required_controls (status : List ControlStatus) (x : Text) :
    x ∈ missing_required_controls status
      ↔ ∃ e, e ∈ status ∧ e.control_id = x ∧ e.required = true ∧ e.satisfied = false := by
  unfold missing_required_controls
  rw [mem_sortTexts]
  simp only [List.mem_map, List.mem_filter, Bool.and_eq_true, Bool.not_eq_true']
  constructor
  · rintro ⟨e, ⟨he, hr, hs⟩, hid⟩
    exact ⟨e, he, hid, hr, hs⟩
  · rintro ⟨e, he, hid, hr, hs⟩
    exact ⟨e, ⟨he, hr, hs⟩, hid⟩

theorem mem_satisfied_controls (status : List ControlStatus) (x : Text) :
    x ∈ sortTexts ((status.filter (fun c => c.satisfied && c.required)).map
        (fun c => c.control_id))
      ↔ ∃ e, e ∈ status ∧ e.control_id = x ∧ e.satisfied = true ∧ e.required = true := by
  rw [mem_sortTexts]
  simp only [List.mem_map, List.mem_filter, Bool.and_eq_true]
  constructor
  · rintro ⟨e, ⟨he, hs, hr⟩, hid⟩
    exact ⟨e, he, hid, hs, hr⟩
  · rintro ⟨e, he, hid, hs, hr⟩
    exact ⟨e, ⟨he, hs, hr⟩, hid⟩

theorem determine_rating_fallback_eq (rats : Ratings) (ctx : Context)
    (status : List ControlStatus) (incident overview : List Text) (bc : Bool)
    (reason : Text) (mc : List Text)
    (h : determine_rating rats ctx status incident overview bc
          = (Rating.very_unfavorable, Details.fallback reason mc)) :
    mc = missing_required_controls status := by
  unfold determine_rating at h
  cases hf : (ratingsOrderReqs rats).find?
      (fun rr => meets_rating rr.2 ctx status incident overview bc) with
  | some rr =>
    rw [hf] at h
    simp [build_rating_details] at h
  | none =>
    rw [hf] at h
    simp only [Prod.mk.injEq, Details.fallback.injEq] at h
    exact h.2.2.symm

theorem determine_rating_tier_eq (rats : Ratings) (ctx : Context)
    (status : List ControlStatus) (incident overview : List Text) (bc : Bool)
    (r r2 : Rating) (sc mc ie io : List Text)
    (h : determine_rating rats ctx status incident overview bc
          = (r, Details.tier r2 sc mc ie io)) :
    sc = sortTexts ((status.filter (fun c => c.satisfied && c.required)).map
          (fun c => c.control_id)) ∧
    mc = missing_required_controls status := by
  unfold determine_rating at h
  cases hf : (ratingsOrderReqs rats).find?
      (fun rr => meets_rating rr.2 ctx status incident overview bc) with
  | some rr =>
    rw [hf] at h
    simp only [build_rating_details, Prod.mk.injEq, Details.tier.injEq] at h
    exact ⟨h.2.2.1.symm, h.2.2.2.1.symm⟩
  | none =>
    rw [hf] at h
    simp at h

theorem evaluate_reduce (conds : Conditions) (cat : Catalog) (rats : Ratings) (notes : Text)
    (hemp : normalize notes ≠ [])
    (hna : (occursIn notApplicablePhrase (normalize notes)
            || hasStandaloneNA (normalize notes)) = false) :
    evaluate { conditions := some conds, catalog := some cat, ratings := some rats } notes
      = Except.ok
        { rating := (determine_rating rats (build_context conds (normalize notes))
            (controlMapOf conds cat (normalize notes)) (collect_incident cat (normalize notes))
            (eval_info_tech_overview rats (normalize notes))
            (eval_business_continuity (controlMapOf conds cat (normalize notes)))).1
        , details := (determine_rating rats (build_context conds (normalize notes))
            (controlMapOf conds cat (normalize notes)) (collect_incident cat (normalize notes))
            (eval_info_tech_overview rats (normalize notes))
            (eval_business_continuity (controlMapOf conds cat (normalize notes)))).2
        , context :=
          { handles_pii := (build_context conds (normalize notes)).handles_pii
          , remote_work_allowed := (build_context conds (normalize notes)).remote_work_allowed
          , software_provider := (build_context conds (normalize notes)).software_provider
          , incident_elements := some (sortTexts (collect_incident cat (normalize notes))) } } := by
  simp [evaluate, hemp, hna, controlMapOf]

/-! ## Claim theorems -/

/-- C1 (code evaluation at the failing input): for the
`lac_passwords_encrypted_in_transit` control, even though a configured negative
statement is present in the corpus, `_statement_satisfies_control` returns
`true` because the control text is also present — the negative-statement branch
sits after the positive early returns and can never override them, contrary to
the claim and to the source's own comment. -/
theorem passwords_negative_override_ineffective :
    statement_present pwNotes ("passwords are not encrypted in transit".toList) = true ∧
    lacNegConds.passwords_encrypted_in_transit_only_if_negative_statement_present.any
      (fun neg => statement_present pwNotes neg) = true ∧
    statement_present pwNotes pwText = true ∧
    statement_satisfies_control lacNegConds pwNotes pwId pwText = true := by
  refine ⟨by decide, by decide, by decide, by decide⟩

/-- C4: the statement-presence test on a normalized corpus returns false for a
raw-empty statement and otherwise is exactly the contiguous-substring test of
the normalized statement against the corpus; in particular a non-empty
statement that normalizes to the empty string is reported present. -/
theorem statement_present_spec (corpus stmt : Text) :
    statement_present (normalize corpus) stmt
      = (!stmt.isEmpty && occursIn (normalize stmt) (normalize corpus)) ∧
    (stmt ≠ [] → normalize stmt = [] →
      statement_present (normalize corpus) stmt = true) := by
  constructor
  · cases stmt with
    | nil => simp [statement_present]
    | cons c rest => simp [statement_present]
  · intro h1 h2
    simp [statement_present, h1, h2, occursIn_nil]

/-- C4 witness: concrete instances — a whitespace-only statement is present in
any normalized corpus, and the general characterization evaluated at a
concrete pair. -/
theorem statement_present_spec_witness :
    statement_present (normalize ("Hello World".toList)) (" ".toList) = true := by
  have h := (statement_present_spec ("Hello World".toList) (" ".toList)).2
    (by decide) (by decide)
  exact h

/-- C9: evaluation is deterministic and stateless across calls — re-evaluating
the same notes on the evaluator state produced by a first call yields an
identical result record, and the result does not depend on the evaluator's
prior `notes` field, only on its rule document and the input. -/
theorem evaluate_deterministic (st : EvaluatorState) (raw : Text) :
    (evaluateST st raw).2 = (evaluateST ((evaluateST st raw).1) raw).2 ∧
    (∀ st2 : EvaluatorState, st2.rules = st.rules →
      (evaluateST st2 raw).2 = (evaluateST st raw).2) := by
  constructor
  · rfl
  · intro st2 h
    simp [evaluateST, h]

/-- C9 witness: the determinism theorem applied at a concrete evaluator state
pair differing only in the prior `notes` field. -/
theorem evaluate_deterministic_witness :
    (evaluateST { rules := {}, notes := ("stale".toList) } ("some vendor notes".toList)).2
      = (evaluateST { rules := {}, notes := [] } ("some vendor notes".toList)).2 :=
  (evaluate_deterministic { rules := {}, notes := [] } ("some vendor notes".toList)).2
    { rules := {}, notes := ("stale".toList) } rfl

/-- C5: degenerate short-circuits — empty normalized notes yield
`no_information_provided` and normalized notes containing `not applicable` or a
standalone `n/a` token yield `n_a`; both carry empty details and the all-false
context block, and the result does not depend on the rule document at all (no
rule evaluation occurs). -/
theorem degenerate_short_circuits (rules rules2 : Rules) (notes : Text) :
    (normalize notes = [] →
      evaluate rules notes
        = Except.ok { rating := Rating.no_information_provided, details := Details.empty
                    , context := { handles_pii := false, remote_work_allowed := false
                                 , software_provider := false, incident_elements := none } } ∧
      evaluate rules notes = evaluate rules2 notes) ∧
    (normalize notes ≠ [] →
      (occursIn notApplicablePhrase (normalize notes)
        || hasStandaloneNA (normalize notes)) = true →
      evaluate rules notes
        = Except.ok { rating := Rating.n_a, details := Details.empty
                    , context := { handles_pii := false, remote_work_allowed := false
                                 , software_provider := false, incident_elements := none } } ∧
      evaluate rules notes = evaluate rules2 notes) := by
  constructor
  · intro h
    constructor
    · simp [evaluate, h, degenerateContext]
    · simp [evaluate, h, degenerateContext]
  · intro h1 h2
    rw [Bool.or_eq_true] at h2
    rcases h2 with h | h
    · exact ⟨by simp [evaluate, h1, h, degenerateContext],
             by simp [evaluate, h1, h, degenerateContext]⟩
    · exact ⟨by simp [evaluate, h1, h, degenerateContext],
             by simp [evaluate, h1, h, degenerateContext]⟩

/-- C5 witness: whitespace-only notes yield `no_information_provided`, and
notes equal to `N/A` yield `n_a`, under two different rule documents. -/
theorem degenerate_short_circuits_witness :
    evaluate {} ("   ".toList)
      = Except.ok { rating := Rating.no_information_provided, details := Details.empty
                  , context := { handles_pii := false, remote_work_allowed := false
                               , software_provider := false, incident_elements := none } } ∧
    evaluate {} ("N/A".toList)
      = Except.ok { rating := Rating.n_a, details := Details.empty
                  , context := { handles_pii := false, remote_work_allowed := false
                               , software_provider := false, incident_elements := none } } :=
  ⟨((degenerate_short_circuits {} { conditions := some {} } ("   ".toList)).1 (by decide)).1,
   ((degenerate_short_circuits {} { conditions := some {} } ("N/A".toList)).2 (by decide) (by decide)).1⟩

/-- C3: with non-degenerate notes, a rule document missing the `conditions`,
`catalog` or `ratings` section makes evaluation abort with a descriptive
failure rather than silently defaulting the missing section. -/
theorem missing_section_aborts (rules : Rules) (notes : Text)
    (h1 : normalize notes ≠ [])
    (h2 : (occursIn notApplicablePhrase (normalize notes)
            || hasStandaloneNA (normalize notes)) = false)
    (h3 : rules.conditions = none ∨ rules.catalog = none ∨ rules.ratings = none) :
    ∃ msg, evaluate rules notes = Except.error msg := by
  obtain ⟨h2a, h2b⟩ := Bool.or_eq_false_iff.mp h2
  cases hc : rules.conditions with
  | none => exact ⟨"conditions", by simp [evaluate, h1, h2a, h2b, hc]⟩
  | some conds =>
    cases hk : rules.catalog with
    | none => exact ⟨"catalog", by simp [evaluate, h1, h2a, h2b, hc, hk]⟩
    | some cat =>
      cases hr : rules.ratings with
      | none => exact ⟨"ratings", by simp [evaluate, h1, h2a, h2b, hc, hk, hr]⟩
      | some rats =>
        exfalso
        rcases h3 with h | h | h
        · rw [hc] at h; exact Option.noConfusion h
        · rw [hk] at h; exact Option.noConfusion h
        · rw [hr] at h; exact Option.noConfusion h

/-- C3 witness: evaluating non-degenerate notes against the empty rule
document aborts with an error. -/
theorem missing_section_aborts_witness :
    ∃ msg, evaluate {} ("vendor uses mfa".toList) = Except.error msg :=
  missing_section_aborts {} ("vendor uses mfa".toList) (by decide) (by decide) (Or.inl rfl)

/-- C7: cross-satisfaction always wins — every control whose identifier is in
the cross-satisfied set is recorded with `satisfied = true` by the control
evaluator, with no assumption about the control's text being present in the
corpus. -/
theorem cross_satisfaction_wins (cat : Catalog) (conds : Conditions) (ctx : Context)
    (cross : List Text) (notes : Text) (e : ControlStatus)
    (he : e ∈ evaluate_controls cat conds ctx cross notes)
    (hid : e.control_id ∈ cross) : e.satisfied = true := by
  have hok : CrossOk cross (evaluate_controls cat conds ctx cross notes) := by
    unfold evaluate_controls
    apply crossOk_foldl cross _ (fun m c => check_control_register conds notes cross m c true)
    apply crossOk_foldl cross _
      (fun m c => check_control_register conds notes cross m c ctx.remote_work_allowed)
    apply crossOk_foldl cross _
      (fun m c => check_control_register conds notes cross m c ctx.software_provider)
    apply crossOk_foldl cross _ (fun m c => check_control_register conds notes cross m c true)
    apply crossOk_foldl cross _ (fun m c => piiStep_register conds notes cross ctx m c)
    apply crossOk_foldl cross _ (fun m c => lacStep_register conds notes cross ctx m c)
    intro e2 he2
    cases he2
  exact hok e he hid

/-- C7 witness: a business-continuity control whose text is absent from the
corpus is still recorded satisfied because its id is cross-satisfied. -/
theorem cross_satisfaction_wins_witness :
    evaluate_controls crossCatalog {} ⟨false, false, false⟩ (["bcp_plan".toList])
        ("no matching text".toList)
      = [{ control_id := "bcp_plan".toList, required := true, satisfied := true
         , text := "documented bcp".toList, tags := [] }] ∧
    ({ control_id := "bcp_plan".toList, required := true, satisfied := true
     , text := "documented bcp".toList, tags := [] } : ControlStatus).satisfied = true :=
  ⟨by decide,
   cross_satisfaction_wins crossCatalog {} ⟨false, false, false⟩ (["bcp_plan".toList])
     ("no matching text".toList) _ (by decide) (by decide)⟩

/-- C6: whenever evaluation falls through to the `very_unfavorable` fallback,
the reported `missing_controls` list contains exactly the ids of the controls
of the same evaluation's control map that are required and not satisfied. -/
theorem fallback_missing_controls_exact
    (conds : Conditions) (cat : Catalog) (rats : Ratings) (notes : Text)
    (reason : Text) (mc : List Text) (cb : ContextBlock) (x : Text)
    (h : evaluate { conditions := some conds, catalog := some cat, ratings := some rats } notes
          = Except.ok { rating := Rating.very_unfavorable
                      , details := Details.fallback reason mc, context := cb }) :
    x ∈ mc ↔ ∃ e, e ∈ controlMapOf conds cat (normalize notes) ∧
      e.control_id = x ∧ e.required = true ∧ e.satisfied = false := by
  by_cases hemp : normalize notes = []
  · simp [evaluate, hemp] at h
  · cases hna : (occursIn notApplicablePhrase (normalize notes)
        || hasStandaloneNA (normalize notes)) with
    | true => simp [evaluate, hemp, hna] at h
    | false =>
      have hrec := Except.ok.inj ((evaluate_reduce conds cat rats notes hemp hna).symm.trans h)
      have h1 := congrArg EvalResult.rating hrec
      have h2 := congrArg EvalResult.details hrec
      have hdet := determine_rating_fallback_eq _ _ _ _ _ _ _ _ (Prod.ext_iff.mpr ⟨h1, h2⟩)
      rw [hdet]
      exact mem_missing_required_controls _ x

/-- C6 witness: the exactness of `missing_controls` instantiated on a concrete
fallback evaluation. -/
theorem fallback_missing_controls_exact_witness :
    ("lac_mfa".toList ∈ (["lac_mfa".toList] : List Text)) ↔
      ∃ e, e ∈ controlMapOf {} sampleCatalog (normalize ("nothing relevant".toList)) ∧
        e.control_id = "lac_mfa".toList ∧ e.required = true ∧ e.satisfied = false :=
  fallback_missing_controls_exact {} sampleCatalog sampleRatings
    ("nothing relevant".toList) fallbackReason (["lac_mfa".toList])
    { handles_pii := false, remote_work_allowed := false
    , software_provider := false, incident_elements := some [] }
    ("lac_mfa".toList) (by rfl)

/-- C10: when a tier rating is awarded, `satisfied_controls` contains exactly
the ids of controls that are both satisfied and required, and a control that is
satisfied but not required appears neither in `satisfied_controls` nor in
`missing_controls`. -/
theorem satisfied_controls_exact
    (conds : Conditions) (cat : Catalog) (rats : Ratings) (notes : Text)
    (r r2 : Rating) (sc mc ie io : List Text) (cb : ContextBlock) (x : Text)
    (h : evaluate { conditions := some conds, catalog := some cat, ratings := some rats } notes
          = Except.ok { rating := r, details := Details.tier r2 sc mc ie io, context := cb }) :
    (x ∈ sc ↔ ∃ e, e ∈ controlMapOf conds cat (normalize notes) ∧
        e.control_id = x ∧ e.satisfied = true ∧ e.required = true) ∧
    (∀ e, e ∈ controlMapOf conds cat (normalize notes) → e.control_id = x →
        e.satisfied = true → e.required = false → x ∉ sc ∧ x ∉ mc) := by
  by_cases hemp : normalize notes = []
  · simp [evaluate, hemp] at h
  · cases hna : (occursIn notApplicablePhrase (normalize notes)
        || hasStandaloneNA (normalize notes)) with
    | true => simp [evaluate, hemp, hna] at h
    | false =>
      have hrec := Except.ok.inj ((evaluate_reduce conds cat rats notes hemp hna).symm.trans h)
      have h1 := congrArg EvalResult.rating hrec
      have h2 := congrArg EvalResult.details hrec
      obtain ⟨hsc, hmc⟩ := determine_rating_tier_eq _ _ _ _ _ _ _ _ _ _ _ _
        (Prod.ext_iff.mpr ⟨h1, h2⟩)
      have hnodup := evaluate_controls_ids_nodup cat conds
        (build_context conds (normalize notes))
        (apply_cross_satisfaction conds (normalize notes)) (normalize notes)
      constructor
      · rw [hsc]
        exact mem_satisfied_controls _ x
      · intro e he hid hs hr
        constructor
        · intro hin
          rw [hsc] at hin
          obtain ⟨e2, he2, hid2, hs2, hr2⟩ := (mem_satisfied_controls _ x).mp hin
          have : e2 = e := eq_of_mem_ids_nodup _ hnodup e2 e he2 he (hid2.trans hid.symm)
          rw [this] at hr2
          rw [hr2] at hr
          exact Bool.noConfusion hr
        · intro hin
          rw [hmc] at hin
          obtain ⟨e2, he2, hid2, hr2, hs2⟩ := (mem_missing_required_controls _ x).mp hin
          have : e2 = e := eq_of_mem_ids_nodup _ hnodup e2 e he2 he (hid2.trans hid.symm)
          rw [this] at hs2
          rw [hs2] at hs
          exact Bool.noConfusion hs

/-- C8: with the need-to-know override flag set and the designated
least-privilege logical-access control (evaluated in the earlier logical-access
loop) satisfied, the `net_pii_need_to_know` control's final status is forced to
`required = false, satisfied = true`, short-circuiting its normal text-based
evaluation; the hypotheses spell out the spec's invariant that the designated
identifiers occur once across the catalog. -/
theorem need_to_know_override
    (cat : Catalog) (conds : Conditions) (ctx : Context) (cross : List Text) (notes : Text)
    (lp ntk : ControlDef) (a1 a2 p1 p2 : List ControlDef)
    (hflag : conds.network_information_security.do_not_enforce_need_to_know_if_least_privilege_statement_present
      = true)
    (hlac : cat.logical_access_controls = a1 ++ lp :: a2)
    (hlpid : lp.id = "lac_least_privilege".toList)
    (ha2 : ∀ c ∈ a2, c.id ≠ lp.id)
    (hpii : cat.network_information_security.pii_controls = p1 ++ ntk :: p2)
    (hntkid : ntk.id = "net_pii_need_to_know".toList)
    (hp1 : ∀ c ∈ p1, c.id ≠ lp.id)
    (hp2 : ∀ c ∈ p2, c.id ≠ ntk.id)
    (hnet : ∀ c ∈ cat.network_information_security.controls, c.id ≠ ntk.id)
    (hchg : ∀ c ∈ cat.change_mgmt_sdlc, c.id ≠ ntk.id)
    (hrwf : ∀ c ∈ cat.remote_workforce, c.id ≠ ntk.id)
    (hbcp : ∀ c ∈ cat.business_continuity, c.id ≠ ntk.id)
    (hsat : lp.id ∈ cross ∨
      statement_satisfies_control conds.logical_access_controls notes lp.id lp.text = true) :
    (evaluate_controls cat conds ctx cross notes).find?
        (fun s => decide (s.control_id = "net_pii_need_to_know".toList))
      = some { control_id := ntk.id, required := false, satisfied := true
             , text := ntk.text, tags := ntk.tags } := by
  have hsat2 : (lacEntry conds notes cross ctx lp).satisfied = true := by
    rcases hsat with h | h
    · show (if lp.id ∈ cross then true else _) = true
      rw [if_pos h]
    · by_cases hm : lp.id ∈ cross
      · show (if lp.id ∈ cross then true else _) = true
        rw [if_pos hm]
      · show (if lp.id ∈ cross then true else _) = true
        rw [if_neg hm]
        exact h
  have hfind1 : ((a1 ++ lp :: a2).foldl (lacStep conds notes cross ctx) []).find?
      (fun s => decide (s.control_id = "lac_least_privilege".toList))
      = some (lacEntry conds notes cross ctx lp) := by
    rw [List.foldl_append, List.foldl_cons]
    rw [find_foldl_not_mem cross _ (fun m c => lacStep_register conds notes cross ctx m c)
        ("lac_least_privilege".toList) a2 (fun c hc => by rw [← hlpid]; exact ha2 c hc)]
    rw [lacStep_eq]
    have hid2 : (lacEntry conds notes cross ctx lp).control_id
        = "lac_least_privilege".toList := hlpid
    rw [← hid2]
    exact find_register_self _ _
  have hfind2 : (p1.foldl (piiStep conds notes cross ctx)
        ((a1 ++ lp :: a2).foldl (lacStep conds notes cross ctx) [])).find?
      (fun s => decide (s.control_id = "lac_least_privilege".toList))
      = some (lacEntry conds notes cross ctx lp) := by
    rw [find_foldl_not_mem cross _ (fun m c => piiStep_register conds notes cross ctx m c)
        ("lac_least_privilege".toList) p1 (fun c hc => by rw [← hlpid]; exact hp1 c hc)]
    exact hfind1
  have hovr := piiStep_override conds notes cross ctx
    (p1.foldl (piiStep conds notes cross ctx)
      ((a1 ++ lp :: a2).foldl (lacStep conds notes cross ctx) []))
    ntk (lacEntry conds notes cross ctx lp) hntkid hflag hfind2 hsat2
  rw [evaluate_controls_eq, hlac, hpii]
  rw [find_foldl_not_mem cross _ (fun m c => check_control_register conds notes cross m c true)
      ("net_pii_need_to_know".toList) cat.business_continuity
      (fun c hc => by rw [← hntkid]; exact hbcp c hc)]
  rw [find_foldl_not_mem cross _
      (fun m c => check_control_register conds notes cross m c ctx.remote_work_allowed)
      ("net_pii_need_to_know".toList) cat.remote_workforce
      (fun c hc => by rw [← hntkid]; exact hrwf c hc)]
  rw [find_foldl_not_mem cross _
      (fun m c => check_control_register conds notes cross m c ctx.software_provider)
      ("net_pii_need_to_know".toList) cat.change_mgmt_sdlc
      (fun c hc => by rw [← hntkid]; exact hchg c hc)]
  rw [find_foldl_not_mem cross _ (fun m c => check_control_register conds notes cross m c true)
      ("net_pii_need_to_know".toList) cat.network_information_security.controls
      (fun c hc => by rw [← hntkid]; exact hnet c hc)]
  rw [List.foldl_append, List.foldl_cons]
  rw [find_foldl_not_mem cross _ (fun m c => piiStep_register conds notes cross ctx m c)
      ("net_pii_need_to_know".toList) p2 (fun c hc => by rw [← hntkid]; exact hp2 c hc)]
  rw [hovr]
  have hid3 : ({ control_id := ntk.id, required := false, satisfied := true
               , text := ntk.text, tags := ntk.tags } : ControlStatus).control_id
      = "net_pii_need_to_know".toList := hntkid
  rw [← hid3]
  exact find_register_self _ _

/-- C8 witness: the override instantiated on a concrete catalog — the notes
contain the least-privilege control text but no need-to-know text, the flag is
enabled, and the need-to-know control reports `required = false,
satisfied = true`. -/
theorem need_to_know_override_witness :
    (evaluate_controls c8Catalog c8Conds ⟨false, false, false⟩ []
        ("least privilege enforced".toList)).find?
        (fun s => decide (s.control_id = "net_pii_need_to_know".toList))
      = some { control_id := "net_pii_need_to_know".toList, required := false
             , satisfied := true, text := "need to know".toList, tags := [] } :=
  need_to_know_override c8Catalog c8Conds ⟨false, false, false⟩ []
    ("least privilege enforced".toList)
    { id := "lac_least_privilege".toList, text := "least privilege enforced".toList }
    { id := "net_pii_need_to_know".toList, text := "need to know".toList }
    [] [] [] [] rfl rfl rfl (fun c hc => absurd hc (List.not_mem_nil c))
    rfl rfl (fun c hc => absurd hc (List.not_mem_nil c))
    (fun c hc => absurd hc (List.not_mem_nil c))
    (fun c hc => absurd hc (List.not_mem_nil c))
    (fun c hc => absurd hc (List.not_mem_nil c))
    (fun c hc => absurd hc (List.not_mem_nil c))
    (fun c hc => absurd hc (List.not_mem_nil c))
    (Or.inr (by decide))

/-- C2 counterexample: appending a control-satisfying statement to the notes
can strictly worsen the rating. Scenario 1: the appended statement flips the
`software_provider` context fact, making unmet change-management controls
required. Scenario 2: the appended least-privilege text triggers the
need-to-know override, emptying the required PII control list that every tier
demands non-empty — here even the derived context is unchanged. -/
theorem monotonicity_counterexample :
    (ratingOf (evaluate c2aRules c2aN1) = some Rating.very_favorable ∧
     statement_present (normalize c2aN2) ("provides software tooling".toList) = true ∧
     ratingOf (evaluate c2aRules c2aN2) = some Rating.very_unfavorable) ∧
    (ratingOf (evaluate c2bRules c2bN1) = some Rating.very_favorable ∧
     statement_present (normalize c2bN2) ("least privilege access is enforced".toList) = true ∧
     build_context c2bConds (normalize c2bN2) = build_context c2bConds (normalize c2bN1) ∧
     ratingOf (evaluate c2bRules c2bN2) = some Rating.very_unfavorable) ∧
    tierRank Rating.very_unfavorable > tierRank Rating.very_favorable :=
  ⟨⟨by rfl, by decide, by rfl⟩, ⟨by rfl, by decide, by decide, by rfl⟩, by decide⟩

/-- C2 (amended): for a fixed complete rule document, appending further
statements to non-degenerate notes yields an equally or more favorable rating
— never strictly worse — provided the appended material leaves the derived
context facts unchanged and leaves every control's required flag unchanged
(the two counterexample scenarios show each proviso is necessary). -/
theorem monotonicity_amended
    (conds : Conditions) (cat : Catalog) (rats : Ratings) (n e : Text)
    (hn : Nondegenerate (normalize n))
    (hn2 : Nondegenerate (normalize (n ++ ' ' :: e)))
    (hctx : build_context conds (normalize (n ++ ' ' :: e))
      = build_context conds (normalize n))
    (hreq : (controlMapOf conds cat (normalize (n ++ ' ' :: e))).map
        (fun s => (s.control_id, s.required))
      = (controlMapOf conds cat (normalize n)).map (fun s => (s.control_id, s.required)))
    (r1 r2 : Rating)
    (h1 : ratingOf
      (evaluate { conditions := some conds, catalog := some cat, ratings := some rats } n)
      = some r1)
    (h2 : ratingOf
      (evaluate { conditions := some conds, catalog := some cat, ratings := some rats }
        (n ++ ' ' :: e))
      = some r2) :
    tierRank r2 ≤ tierRank r1 := by
  obtain ⟨hne1, hna1⟩ := hn
  obtain ⟨hne2, hna2⟩ := hn2
  rw [evaluate_reduce conds cat rats n hne1 hna1] at h1
  rw [evaluate_reduce conds cat rats (n ++ ' ' :: e) hne2 hna2] at h2
  have e1 : (determine_rating rats (build_context conds (normalize n))
      (controlMapOf conds cat (normalize n)) (collect_incident cat (normalize n))
      (eval_info_tech_overview rats (normalize n))
      (eval_business_continuity (controlMapOf conds cat (normalize n)))).1 = r1 :=
    Option.some.inj h1
  have e2 : (determine_rating rats (build_context conds (normalize (n ++ ' ' :: e)))
      (controlMapOf conds cat (normalize (n ++ ' ' :: e)))
      (collect_incident cat (normalize (n ++ ' ' :: e)))
      (eval_info_tech_overview rats (normalize (n ++ ' ' :: e)))
      (eval_business_continuity (controlMapOf conds cat (normalize (n ++ ' ' :: e))))).1
      = r2 :=
    Option.some.inj h2
  rw [← e1, ← e2]
  obtain ⟨tail, htail⟩ := normalize_append_space n e
  rw [htail] at hctx hreq ⊢
  rw [hctx]
  have hsub := apply_cross_satisfaction_mono conds (normalize n) tail
  have hF : List.Forall₂ StatusMono (controlMapOf conds cat (normalize n))
      (controlMapOf conds cat (normalize n ++ tail)) := by
    apply forall2_strengthen _ _ _ hreq
    unfold controlMapOf
    rw [hctx]
    exact evaluate_controls_relW cat conds (build_context conds (normalize n))
      (normalize n) tail _ _ hsub
  apply determine_rating_rank_mono
  intro req hmeet
  exact meets_rating_mono req (build_context conds (normalize n)) _ _ _ _ _ _ _ _ hF
    (eval_overview_mono rats (normalize n) tail)
    (collect_incident_length_le cat (normalize n) tail)
    (fun hb => eval_bc_mono _ _ hF hb) hmeet

/-- C2 amended witness: the provisos hold concretely for the sample rule
document when harmless extra text is appended, and the rating does not
worsen. -/
theorem monotonicity_amended_witness :
    tierRank Rating.very_favorable ≤ tierRank Rating.very_favorable :=
  monotonicity_amended {} sampleCatalog sampleRatings
    ("mfa is enforced".toList) ("extra vendor detail".toList)
    ⟨by decide, by decide⟩ ⟨by decide, by decide⟩ (by decide) (by decide)
    Rating.very_favorable Rating.very_favorable (by rfl) (by rfl)

/-- C10 witness: the satisfied-controls characterization instantiated on a
concrete awarded tier. -/
theorem satisfied_controls_exact_witness :
    ("lac_mfa".toList ∈ (["lac_mfa".toList] : List Text)) ↔
      ∃ e, e ∈ controlMapOf {} sampleCatalog (normalize ("MFA is enforced".toList)) ∧
        e.control_id = "lac_mfa".toList ∧ e.satisfied = true ∧ e.required = true :=
  (satisfied_controls_exact {} sampleCatalog sampleRatings ("MFA is enforced".toList)
    Rating.very_favorable Rating.very_favorable (["lac_mfa".toList]) [] [] []
    { handles_pii := false, remote_work_allowed := false
    , software_provider := false, incident_elements := some [] }
    ("lac_mfa".toList) (by rfl)).1

end RiskRating
